import Mathlib

/-!
Verification of the wapugotchi feed reconciliation and rebuild pipeline.

The development shallowly embeds the Go sources of the repository:
`app/cmd/feed.go` (reconciler, feed builder, run driver), `app/feed/releases.go`
and the wordpress-tv / wordpress-com provider adapters.  External collaborators
(HTTP fetch, XML decoding, the translation capability, the clock and the file
system) are modelled as explicit inputs; file writes are recorded in the run
outcome instead of being performed.  Machine integers are modelled as `Nat`
(with explicit `% 2 ^ 32` where Go overflows) and `Int`.
-/

namespace Wapu

/-! ## Strings: Go `strings` helpers on the character list -/

/-- Characters treated as white space by Go `unicode.IsSpace` (ASCII part;
the pipeline only ever trims ASCII white space). -/
def isSpaceGo (c : Char) : Bool :=
  c = ' ' || c = '\t' || c = '\n' || c = '\r' ||
  c = Char.ofNat 11 || c = Char.ofNat 12

/-- Go `strings.TrimSpace`. -/
def trimSpace (s : String) : String :=
  ⟨((s.data.dropWhile isSpaceGo).reverse.dropWhile isSpaceGo).reverse⟩

/-- Go `strings.ToLower` (ASCII letters; sufficient for the markup checks). -/
def toLowerGo (s : String) : String :=
  ⟨s.data.map Char.toLower⟩

/-- Does `p` occur at the head of `s`? -/
def startsWithL : List Char → List Char → Bool
  | [], _ => true
  | _ :: _, [] => false
  | p :: ps, c :: cs => p = c && startsWithL ps cs

/-- Does `sub` occur anywhere in `s`? -/
def hasInfixL (sub : List Char) : List Char → Bool
  | [] => startsWithL sub []
  | c :: cs => startsWithL sub (c :: cs) || hasInfixL sub cs

/-- Go `strings.Contains`. -/
def goContains (s sub : String) : Bool :=
  hasInfixL sub.data s.data

/-- Go `strings.HasSuffix`. -/
def goHasSuffix (s suf : String) : Bool :=
  startsWithL suf.data.reverse s.data.reverse

/-! ## Time: instants and the Gregorian calendar

Go's `time.Time` is modelled by an instant: Unix seconds plus nanoseconds. -/

structure GoTime where
  sec : Int
  nsec : Nat
  deriving DecidableEq, Repr

/-- Strict order on instants (seconds, then nanoseconds). -/
def goTimeLtB (a b : GoTime) : Bool :=
  a.sec < b.sec || (a.sec = b.sec && a.nsec < b.nsec)

/-- Go `isLeap`. -/
def isLeap (y : Nat) : Bool :=
  y % 4 = 0 && (y % 100 ≠ 0 || y % 400 = 0)

def daysInYear (y : Nat) : Nat :=
  if isLeap y then 366 else 365

/-- Days in the proleptic Gregorian calendar before January 1 of year `y`
(counting from year 0). -/
def daysBeforeYear : Nat → Nat
  | 0 => 0
  | y + 1 => daysBeforeYear y + daysInYear y

/-- Cumulative days before month `m` (1-based) in a non-leap year;
Go's `daysBefore` table. -/
def daysBeforeMonth (m : Nat) : Nat :=
  match m with
  | 1 => 0
  | 2 => 31
  | 3 => 59
  | 4 => 90
  | 5 => 120
  | 6 => 151
  | 7 => 181
  | 8 => 212
  | 9 => 243
  | 10 => 273
  | 11 => 304
  | 12 => 334
  | _ => 365

/-- Go `daysIn(m, year)`, parameterised by the leap flag. -/
def daysInMonth (leap : Bool) (m : Nat) : Nat :=
  if m = 2 then (if leap then 29 else 28)
  else daysBeforeMonth (m + 1) - daysBeforeMonth m

/-- Zero-based day of the year of a valid civil date, parameterised by the
leap flag. -/
def dayOfYear (leap : Bool) (m d : Nat) : Nat :=
  daysBeforeMonth m + (if leap && decide (3 ≤ m) then 1 else 0) + (d - 1)

/-- Days from 0000-01-01 to the given civil date. -/
def dateDays (y m d : Nat) : Nat :=
  daysBeforeYear y + dayOfYear (isLeap y) m d

/-- Seconds from 0000-01-01T00:00:00 to 1970-01-01T00:00:00
(`daysBeforeYear 1970 = 719528` days). -/
def unixEpochSec : Nat := 62167219200

/-- Unix seconds of a civil date-time (UTC), as computed by Go `time.Date`. -/
def civilToUnix (y mo d h mi s : Nat) : Int :=
  ((dateDays y mo d : Int)) * 86400 + (h : Int) * 3600 + (mi : Int) * 60 + (s : Int)
    - (unixEpochSec : Int)

/-! ## Parsing RFC 3339 (Go `time.Parse(time.RFC3339, ·)`) -/

def isDigitC (c : Char) : Bool :=
  48 ≤ c.toNat && c.toNat ≤ 57

/-- Numeric value of a digit character. -/
def dval (c : Char) : Nat := c.toNat - 48

/-- Nanoseconds denoted by a fractional-digit run (Go keeps at most nine
digits and scales). -/
def nsecOfDigits (ds : List Char) : Nat :=
  let first9 := ds.take 9
  (first9.foldl (fun a c => a * 10 + dval c) 0) * 10 ^ (9 - first9.length)

/-- Zone suffix: `Z` or `±hh:mm` (Go's general parser does not bound the
numeric components).  Returns the offset in seconds east of UTC. -/
def parseZoneChars (cs : List Char) : Option Int :=
  match cs with
  | [z] => if z = 'Z' then some 0 else none
  | [sg, h1, h2, c, m1, m2] =>
    if c = ':' && (sg = '+' || sg = '-') &&
        isDigitC h1 && isDigitC h2 && isDigitC m1 && isDigitC m2 then
      let off : Int := ((dval h1 * 10 + dval h2) * 3600 + (dval m1 * 10 + dval m2) * 60 : Nat)
      some (if sg = '-' then -off else off)
    else none
  | _ => none

/-- The fractional part and remainder: Go accepts `.` (fast path) or `,`
(general path) followed by at least one digit. -/
def splitFrac (cs : List Char) : Nat × List Char :=
  match cs with
  | sep :: c :: rest =>
    if (sep = '.' || sep = ',') && isDigitC c then
      (nsecOfDigits (c :: rest.takeWhile isDigitC), rest.dropWhile isDigitC)
    else (0, cs)
  | _ => (0, cs)

/-- Go `time.Parse(time.RFC3339, ·)` on the character list:
`YYYY-MM-DDTHH:MM:SS`, an optional fraction, then the zone.  Field ranges are
validated as Go does (month 1–12, day within the month, hour ≤ 23,
minute/second ≤ 59). -/
def rfc3339Core (cs : List Char) : Option GoTime :=
  match cs with
  | y1 :: y2 :: y3 :: y4 :: '-' :: o1 :: o2 :: '-' :: d1 :: d2 :: 'T' ::
      h1 :: h2 :: ':' :: n1 :: n2 :: ':' :: s1 :: s2 :: rest =>
    if isDigitC y1 && isDigitC y2 && isDigitC y3 && isDigitC y4 &&
        isDigitC o1 && isDigitC o2 && isDigitC d1 && isDigitC d2 &&
        isDigitC h1 && isDigitC h2 && isDigitC n1 && isDigitC n2 &&
        isDigitC s1 && isDigitC s2 then
      let y := dval y1 * 1000 + dval y2 * 100 + dval y3 * 10 + dval y4
      let mo := dval o1 * 10 + dval o2
      let d := dval d1 * 10 + dval d2
      let h := dval h1 * 10 + dval h2
      let mi := dval n1 * 10 + dval n2
      let s := dval s1 * 10 + dval s2
      if 1 ≤ mo && mo ≤ 12 && 1 ≤ d && d ≤ daysInMonth (isLeap y) mo &&
          h ≤ 23 && mi ≤ 59 && s ≤ 59 then
        let fr := splitFrac rest
        match parseZoneChars fr.2 with
        | some off => some ⟨civilToUnix y mo d h mi s - off, fr.1⟩
        | none => none
      else none
    else none
  | _ => none

/-- `parseTime` from `feed.go`: trim, then parse as RFC 3339. -/
def parseTime (value : String) : Option GoTime :=
  rfc3339Core (trimSpace value).data

/-- The normalized fixed-width timestamp representation: exactly the 20
character `YYYY-MM-DDTHH:MM:SSZ` strings accepted by `parseTime`. -/
def isNormalizedTime (s : String) : Bool :=
  s.data.length = 20 && (parseTime s).isSome

/-! ## The calendar in the other direction: instants back to civil dates -/

/-- Year containing day `days` (counted from 0000-01-01), together with the
zero-based day of that year. -/
def findYear (y days : Nat) : Nat × Nat :=
  if _h : days < daysInYear y then (y, days)
  else findYear (y + 1) (days - daysInYear y)
  termination_by days
  decreasing_by
    have h365 : 365 ≤ daysInYear y := by unfold daysInYear; split <;> omega
    omega

/-- Month and (1-based) day containing the zero-based year day `doy`. -/
def findMonth (leap : Bool) (mo doy : Nat) : Nat × Nat :=
  if _h : 12 ≤ mo then (12, doy + 1)
  else if doy < daysInMonth leap mo then (mo, doy + 1)
  else findMonth leap (mo + 1) (doy - daysInMonth leap mo)
  termination_by 12 - mo

/-- Civil date of a day count from 0000-01-01. -/
def civilFromDays (days : Nat) : Nat × Nat × Nat :=
  let yd := findYear 0 days
  let md := findMonth (isLeap yd.1) 1 yd.2
  (yd.1, md.1, md.2)

/-- Civil date of a possibly negative day count (valid for
`-438291 ≤ d`, i.e. from year -1200 on, which covers every instant the
parsers can produce; 438291 days are three 400-year cycles). -/
def civilFromAbsDay (d : Int) : Int × Nat × Nat :=
  if 0 ≤ d then
    let c := civilFromDays d.toNat
    ((c.1 : Int), c.2.1, c.2.2)
  else
    let c := civilFromDays (d + 438291).toNat
    ((c.1 : Int) - 1200, c.2.1, c.2.2)

def digitChar (n : Nat) : Char := Char.ofNat (48 + n)

/-- Decimal digits of `n`, least significant first. -/
def natDigitsRev (n : Nat) : List Char :=
  if _h : n < 10 then [digitChar n]
  else digitChar (n % 10) :: natDigitsRev (n / 10)
  termination_by n
  decreasing_by omega

def natDecimal (n : Nat) : List Char := (natDigitsRev n).reverse

/-- `n` in decimal, zero padded on the left to width `w`
(Go `appendInt(b, x, w)` for nonnegative `x`). -/
def padNat (w n : Nat) : String :=
  ⟨List.replicate (w - (natDecimal n).length) (digitChar 0) ++ natDecimal n⟩

/-- Go `appendInt(b, x, w)`: a minus sign followed by the padded magnitude
for negative values. -/
def padInt (w : Nat) (x : Int) : String :=
  if x < 0 then "-" ++ padNat w x.natAbs else padNat w x.toNat

def pad2 (n : Nat) : String := padNat 2 n

def weekdayName (w : Nat) : String :=
  match w with
  | 0 => "Sun" | 1 => "Mon" | 2 => "Tue" | 3 => "Wed"
  | 4 => "Thu" | 5 => "Fri" | _ => "Sat"

def monthName (m : Nat) : String :=
  match m with
  | 1 => "Jan" | 2 => "Feb" | 3 => "Mar" | 4 => "Apr"
  | 5 => "May" | 6 => "Jun" | 7 => "Jul" | 8 => "Aug"
  | 9 => "Sep" | 10 => "Oct" | 11 => "Nov" | _ => "Dec"

/-- Go `t.UTC().Format(time.RFC1123Z)`:
`Mon, 02 Jan 2006 15:04:05 -0700` with a `+0000` zone.
Day 0 of the day count (0000-01-01) is a Saturday. -/
def formatRFC1123Z (t : GoTime) : String :=
  let abs : Int := t.sec + (unixEpochSec : Int)
  let day : Int := (abs - (abs % 86400 + 86400) % 86400) / 86400
  let sod : Nat := ((abs % 86400 + 86400) % 86400).toNat
  let c := civilFromAbsDay day
  let w : Nat := (((day + 6) % 7 + 7) % 7).toNat
  weekdayName w ++ ", " ++ pad2 c.2.2 ++ " " ++ monthName c.2.1 ++ " " ++
    padInt 4 c.1 ++ " " ++ pad2 (sod / 3600) ++ ":" ++ pad2 (sod / 60 % 60) ++ ":" ++
    pad2 (sod % 60) ++ " +0000"

/-- Go `t.UTC().Format(time.RFC3339)`: `YYYY-MM-DDTHH:MM:SSZ`. -/
def formatRFC3339Z (t : GoTime) : String :=
  let abs : Int := t.sec + (unixEpochSec : Int)
  let day : Int := (abs - (abs % 86400 + 86400) % 86400) / 86400
  let sod : Nat := ((abs % 86400 + 86400) % 86400).toNat
  let c := civilFromAbsDay day
  padInt 4 c.1 ++ "-" ++ pad2 c.2.1 ++ "-" ++ pad2 c.2.2 ++ "T" ++
    pad2 (sod / 3600) ++ ":" ++ pad2 (sod / 60 % 60) ++ ":" ++ pad2 (sod % 60) ++ "Z"

/-! ## Parsing RFC 1123 / RFC 1123Z (Go's general layout parser) -/

/-- Case-insensitive ASCII comparison, as Go's `match` in the `time`
package. -/
def ciEq (a b : Char) : Bool := a.toLower = b.toLower

/-- Strip a table entry from the input, case-insensitively. -/
def stripCI : List Char → List Char → Option (List Char)
  | [], cs => some cs
  | _ :: _, [] => none
  | p :: ps, c :: cs => if ciEq p c then stripCI ps cs else none

/-- Go `lookup`: first table entry matching a prefix of the input. -/
def lookupName : List String → Nat → List Char → Option (Nat × List Char)
  | [], _, _ => none
  | n :: tab, i, cs =>
    match stripCI n.data cs with
    | some rest => some (i, rest)
    | none => lookupName tab (i + 1) cs

def shortDayNames : List String := ["Sun", "Mon", "Tue", "Wed", "Thu", "Fri", "Sat"]

def shortMonthNames : List String :=
  ["Jan", "Feb", "Mar", "Apr", "May", "Jun", "Jul", "Aug", "Sep", "Oct", "Nov", "Dec"]

/-- Fixed two-digit number (Go `getnum` with `fixed = true`). -/
def num2 : List Char → Option (Nat × List Char)
  | a :: b :: rest =>
    if isDigitC a && isDigitC b then some (dval a * 10 + dval b, rest) else none
  | _ => none

/-- Four layout characters of year, via Go `atoi` (an optional sign and
digits that must fill the width). -/
def year4 : List Char → Option (Int × List Char)
  | '-' :: a :: b :: c :: rest =>
    if isDigitC a && isDigitC b && isDigitC c then
      some (-(dval a * 100 + dval b * 10 + dval c : Nat), rest)
    else none
  | '+' :: a :: b :: c :: rest =>
    if isDigitC a && isDigitC b && isDigitC c then
      some ((dval a * 100 + dval b * 10 + dval c : Nat), rest)
    else none
  | a :: b :: c :: d :: rest =>
    if isDigitC a && isDigitC b && isDigitC c && isDigitC d then
      some ((dval a * 1000 + dval b * 100 + dval c * 10 + dval d : Nat), rest)
    else none
  | _ => none

/-- Go `isLeap` on the parsed (possibly negative) year; Go's `%` test is a
divisibility test for either sign convention. -/
def isLeapZ (y : Int) : Bool :=
  y % 4 = 0 && (y % 100 ≠ 0 || y % 400 = 0)

/-- `daysBeforeYear` extended to negative years by shifting three 400-year
cycles (valid from year -1200, covering all four-character years). -/
def daysBeforeYearZ (y : Int) : Int :=
  if 0 ≤ y then daysBeforeYear y.toNat
  else (daysBeforeYear (y + 1200).toNat : Int) - 438291

/-- Unix seconds of a civil date-time with a possibly negative year. -/
def civilToUnixZ (y : Int) (mo d h mi s : Nat) : Int :=
  (daysBeforeYearZ y + (dayOfYear (isLeapZ y) mo d : Int)) * 86400 +
    (h : Int) * 3600 + (mi : Int) * 60 + (s : Int) - (unixEpochSec : Int)

def isUpperC (c : Char) : Bool := 65 ≤ c.toNat && c.toNat ≤ 90

/-- Signed hour offset (Go `parseSignedOffset`): a sign, a digit run, value
at most 23.  Returns the number of consumed characters and the signed
value. -/
def signedHours : List Char → Option (Nat × Int)
  | sg :: rest =>
    if sg = '+' || sg = '-' then
      let ds := rest.takeWhile isDigitC
      if ds = [] then none
      else
        let v : Nat := ds.foldl (fun a c => a * 10 + dval c) 0
        if v ≤ 23 then
          some (1 + ds.length, if sg = '-' then -(v : Int) else (v : Int))
        else none
    else none
  | [] => none

/-- Go `parseTimeZone` plus the zone-name resolution performed by `Parse`:
the returned offset is 0 for plain abbreviations (an unknown name becomes a
fabricated zone with zero offset; the process-local zone database is
externalized as empty, i.e. a UTC environment), and `GMT±h` carries the
signed hour. -/
def parseTZ (cs : List Char) : Option (Int × List Char) :=
  if startsWithL ("ChST".data) cs || startsWithL ("MeST".data) cs then
    some (0, cs.drop 4)
  else if startsWithL ("GMT".data) cs then
    match signedHours (cs.drop 3) with
    | some nv => some (nv.2 * 3600, cs.drop (3 + nv.1))
    | none => some (0, cs.drop 3)
  else
    match signedHours cs with
    | some nv => some (0, cs.drop nv.1)
    | none =>
      let ups := cs.takeWhile isUpperC
      match ups.length with
      | 3 => some (0, cs.drop 3)
      | 4 =>
        if ups.getLast? = some 'T' || startsWithL ("WITA".data) cs then some (0, cs.drop 4)
        else none
      | 5 => if (ups.take 5).getLast? = some 'T' then some (0, cs.drop 5) else none
      | _ => none

/-- Numeric `±hhmm` zone (Go `stdNumTZ`; the components are not range
checked). -/
def zoneNum : List Char → Option (Int × List Char)
  | sg :: a :: b :: c :: d :: rest =>
    if (sg = '+' || sg = '-') && isDigitC a && isDigitC b && isDigitC c && isDigitC d then
      let off : Int := ((dval a * 10 + dval b) * 3600 + (dval c * 10 + dval d) * 60 : Nat)
      some (if sg = '-' then -off else off, rest)
    else none
  | _ => none

/-- Shared body of `time.Parse` for the RFC 1123 layouts:
`Mon, 02 Jan 2006 15:04:05` followed by either `-0700` or `MST`. -/
def rfc1123Core (numericZone : Bool) (cs : List Char) : Option GoTime := do
  let wd ← lookupName shortDayNames 0 cs
  let cs := wd.2
  let cs ← match cs with
    | ',' :: ' ' :: rest => some rest
    | _ => none
  let dd ← num2 cs
  let cs ← match dd.2 with
    | ' ' :: rest => some rest
    | _ => none
  let mn ← lookupName shortMonthNames 0 cs
  let mo := mn.1 + 1
  let cs ← match mn.2 with
    | ' ' :: rest => some rest
    | _ => none
  let yy ← year4 cs
  let cs ← match yy.2 with
    | ' ' :: rest => some rest
    | _ => none
  let hh ← num2 cs
  let cs ← match hh.2 with
    | ':' :: rest => some rest
    | _ => none
  let mm ← num2 cs
  let cs ← match mm.2 with
    | ':' :: rest => some rest
    | _ => none
  let ss ← num2 cs
  let cs ← match ss.2 with
    | ' ' :: rest => some rest
    | _ => none
  let zn ← if numericZone then zoneNum cs else parseTZ cs
  if zn.2 = [] && hh.1 ≤ 23 && mm.1 ≤ 59 && ss.1 ≤ 59 &&
      1 ≤ dd.1 && dd.1 ≤ daysInMonth (isLeapZ yy.1) mo then
    some ⟨civilToUnixZ yy.1 mo dd.1 hh.1 mm.1 ss.1 - zn.1, 0⟩
  else none

/-- `parsePubDate` from `feed.go`: trim; empty is an error; try RFC 1123Z,
then RFC 1123. -/
def parsePubDate (value : String) : Option GoTime :=
  let v := trimSpace value
  if v = "" then none
  else
    match rfc1123Core true v.data with
    | some t => some t
    | none => rfc1123Core false v.data

/-! ## MD5 (Go `crypto/md5`), on byte lists with `Nat` words mod `2 ^ 32` -/

def md5K : List Nat :=
  [3614090360, 3905402710, 606105819, 3250441966, 4118548399, 1200080426,
   2821735955, 4249261313, 1770035416, 2336552879, 4294925233, 2304563134,
   1804603682, 4254626195, 2792965006, 1236535329, 4129170786, 3225465664,
   643717713, 3921069994, 3593408605, 38016083, 3634488961, 3889429448,
   568446438, 3275163606, 4107603335, 1163531501, 2850285829, 4243563512,
   1735328473, 2368359562, 4294588738, 2272392833, 1839030562, 4259657740,
   2763975236, 1272893353, 4139469664, 3200236656, 681279174, 3936430074,
   3572445317, 76029189, 3654602809, 3873151461, 530742520, 3299628645,
   4096336452, 1126891415, 2878612391, 4237533241, 1700485571, 2399980690,
   4293915773, 2240044497, 1873313359, 4264355552, 2734768916, 1309151649,
   4149444226, 3174756917, 718787259, 3951481745]

def md5S : List Nat :=
  [7, 12, 17, 22, 7, 12, 17, 22, 7, 12, 17, 22, 7, 12, 17, 22,
   5, 9, 14, 20, 5, 9, 14, 20, 5, 9, 14, 20, 5, 9, 14, 20,
   4, 11, 16, 23, 4, 11, 16, 23, 4, 11, 16, 23, 4, 11, 16, 23,
   6, 10, 15, 21, 6, 10, 15, 21, 6, 10, 15, 21, 6, 10, 15, 21]

def rotl32 (x n : Nat) : Nat :=
  (x * 2 ^ n) % 4294967296 + x / 2 ^ (32 - n)

/-- UTF-8 encoding of one character. -/
def utf8Char (c : Char) : List Nat :=
  let n := c.toNat
  if n < 128 then [n]
  else if n < 2048 then [192 + n / 64, 128 + n % 64]
  else if n < 65536 then [224 + n / 4096, 128 + n / 64 % 64, 128 + n % 64]
  else [240 + n / 262144, 128 + n / 4096 % 64, 128 + n / 64 % 64, 128 + n % 64]

def utf8Bytes (s : String) : List Nat :=
  (s.data.map utf8Char).flatten

/-- `w` little-endian bytes of `v`. -/
def leBytes (w v : Nat) : List Nat :=
  (List.range w).map (fun i => v / 256 ^ i % 256)

def md5Pad (msg : List Nat) : List Nat :=
  let len := msg.length
  let zeros := (56 + 64 - (len + 1) % 64) % 64
  msg ++ [128] ++ List.replicate zeros 0 ++ leBytes 8 (len * 8)

/-- Little-endian 32-bit word `i` of a 64-byte chunk. -/
def leWord (bs : List Nat) (i : Nat) : Nat :=
  bs.getD (4 * i) 0 + bs.getD (4 * i + 1) 0 * 256 +
    bs.getD (4 * i + 2) 0 * 65536 + bs.getD (4 * i + 3) 0 * 16777216

def md5F (i b c d : Nat) : Nat :=
  if i < 16 then (b &&& c) ||| ((4294967295 - b) &&& d)
  else if i < 32 then (d &&& b) ||| ((4294967295 - d) &&& c)
  else if i < 48 then b ^^^ c ^^^ d
  else c ^^^ (b ||| (4294967295 - d))

def md5G (i : Nat) : Nat :=
  if i < 16 then i
  else if i < 32 then (5 * i + 1) % 16
  else if i < 48 then (3 * i + 5) % 16
  else (7 * i) % 16

def md5Step (chunk : List Nat) (st : Nat × Nat × Nat × Nat) (i : Nat) :
    Nat × Nat × Nat × Nat :=
  let tmp := (st.1 + md5F i st.2.1 st.2.2.1 st.2.2.2 + md5K.getD i 0 +
    leWord chunk (md5G i)) % 4294967296
  let b2 := (st.2.1 + rotl32 tmp (md5S.getD i 0)) % 4294967296
  (st.2.2.2, b2, st.2.1, st.2.2.1)

def md5Chunks (st : Nat × Nat × Nat × Nat) (bs : List Nat) : Nat × Nat × Nat × Nat :=
  match bs with
  | [] => st
  | b :: rest =>
    let chunk := b :: rest.take 63
    let r := (List.range 64).foldl (md5Step chunk) st
    md5Chunks ((st.1 + r.1) % 4294967296, (st.2.1 + r.2.1) % 4294967296,
      (st.2.2.1 + r.2.2.1) % 4294967296, (st.2.2.2 + r.2.2.2) % 4294967296)
      (rest.drop 63)
  termination_by bs.length
  decreasing_by simp [List.length_drop]; omega

def hexChar (n : Nat) : Char :=
  if n < 10 then digitChar n else Char.ofNat (87 + n)

def byteHex (b : Nat) : List Char :=
  [hexChar (b / 16), hexChar (b % 16)]

/-- Lowercase hex digest of the MD5 of a string's UTF-8 bytes
(Go `fmt.Sprintf("%x", md5.Sum([]byte(value)))`). -/
def md5Hex (s : String) : String :=
  let r := md5Chunks (1732584193, 4023233417, 2562383102, 271733878)
    (md5Pad (utf8Bytes s))
  ⟨((leBytes 4 r.1 ++ leBytes 4 r.2.1 ++ leBytes 4 r.2.2.1 ++
      leBytes 4 r.2.2.2).map byteHex).flatten⟩

/-! ## Data model (`feed.go`, `releases.go`) -/

/-- `feed.Item`: the common item shape returned by the provider adapters. -/
structure FItem where
  title : String := ""
  link : String := ""
  guid : String := ""
  pubDate : String := ""
  description : String := ""
  categories : List String := []
  deriving DecidableEq, Repr

/-- A persisted `Entry`. -/
structure Entry where
  id : String := ""
  title : String := ""
  link : String := ""
  content : String := ""
  createdAt : String := ""
  categories : List String := []
  deriving DecidableEq, Repr

/-- Reconciliation `State`: the Go map `Latest` from provider name to last
seen identity, modelled as an association list with at most one pair per
key. -/
structure State where
  latest : List (String × String) := []
  deriving DecidableEq, Repr

/-- Map read `state.Latest[k]`. -/
def getLatest (s : State) (k : String) : Option String :=
  (s.latest.find? (fun p => p.1 = k)).map (fun p => p.2)

/-- Map write `state.Latest[k] = v`. -/
def setLatest (s : State) (k v : String) : State :=
  if s.latest.any (fun p => p.1 = k) then
    ⟨s.latest.map (fun p => if p.1 = k then (k, v) else p)⟩
  else ⟨s.latest ++ [(k, v)]⟩

structure Site where
  title : String := ""
  link : String := ""
  description : String := ""
  deriving DecidableEq, Repr

/-- An `<item>` of the outbound document. -/
structure RSSItem where
  id : String := ""
  title : String := ""
  link : String := ""
  pubDate : String := ""
  description : String := ""
  categories : List String := []
  deriving DecidableEq, Repr

/-- The `<channel>`; an absent `lastBuildDate` (`omitempty`) is `none`. -/
structure RSSChannel where
  title : String := ""
  link : String := ""
  description : String := ""
  lastBuildDate : Option String := none
  items : List RSSItem := []
  deriving DecidableEq, Repr

structure RSSDoc where
  version : String := "2.0"
  channel : RSSChannel := {}
  deriving DecidableEq, Repr

/-! ## Identity assignment and reconciliation (`feed.go`) -/

/-- `hashString`: the MD5 hex digest of the trimmed value; an empty trimmed
value falls back to the clock (`nowNanos` is the external
`time.Now().UnixNano()`). -/
def hashString (nowNanos : Nat) (value : String) : String :=
  let value := trimSpace value
  if value = "" then "hash-" ++ toString nowNanos
  else md5Hex value

/-- `pickEntryID`: trimmed publish date, else trimmed link, else a
provider-and-clock fallback; hashed together with the provider name. -/
def pickEntryID (nowNanos : Nat) (provider : String) (item : FItem) : String :=
  let base := trimSpace item.pubDate
  let base := if base = "" then trimSpace item.link else base
  let base := if base = "" then provider ++ "-" ++ toString nowNanos else base
  hashString nowNanos (provider ++ "|" ++ base)

/-- `pickEntryTime`: the parsed publish date, else the external clock `now`,
rendered in the normalized representation. -/
def pickEntryTime (now : GoTime) (item : FItem) : String :=
  match parsePubDate item.pubDate with
  | none => formatRFC3339Z now
  | some t => formatRFC3339Z t

/-- `idExists`. -/
def idExists (entries : List Entry) (id : String) : Bool :=
  entries.any (fun e => e.id = id)

/-- `cleanCategories`: trim each label, drop the empty ones, keep order and
duplicates. -/
def cleanCategories (values : List String) : List String :=
  values.filterMap (fun v =>
    let v := trimSpace v
    if v = "" then none else some v)

/-- `translateContent`.  The external translation capability
(`TransformTextByAi`) is the explicit argument `tf`; a failure degrades to
the untranslated text. -/
def translateContent (tf : String → Except String String) (text : String)
    (allow : Bool) : String :=
  let text := trimSpace text
  if text = "" || !allow || goContains (toLowerGo text) "<iframe" then text
  else
    match tf text with
    | .error _ => text
    | .ok translated => translated

/-- A provider descriptor (name and translate flag; the fetch capability is
externalized into the per-poll fetch outcome). -/
structure FeedProvider where
  name : String
  translate : Bool
  deriving DecidableEq, Repr

/-- `addLatestFromProvider`.  The Go function mutates `entries` and `state`
through pointers and returns `(added, error)`; here the fetch outcome is an
input and the new entry list and state are returned.  A fetch error leaves
both untouched. -/
def addLatestFromProvider (tf : String → Except String String)
    (nowNanos : Nat) (now : GoTime) (provider : FeedProvider)
    (fetched : Except String FItem) (entries : List Entry) (state : State) :
    Except String (Bool × List Entry × State) :=
  match fetched with
  | .error e => .error e
  | .ok item =>
    if trimSpace item.title = "" then .ok (false, entries, state)
    else
      let item := { item with categories := cleanCategories item.categories }
      let id := pickEntryID nowNanos provider.name item
      if idExists entries id then
        .ok (false, entries, setLatest state provider.name id)
      else
        let text := translateContent tf item.description provider.translate
        let entry : Entry :=
          { id := id, title := item.title, link := item.link, content := text,
            createdAt := pickEntryTime now item, categories := item.categories }
        .ok (true, entries ++ [entry], setLatest state provider.name id)

/-! ## Feed building (`buildFeed`) -/

/-- Go's byte-wise string comparison `x < y` on the character lists
(UTF-8 byte order coincides with code-point order). -/
def lexLtB : List Char → List Char → Bool
  | _, [] => false
  | [], _ :: _ => true
  | a :: as, b :: bs => if a < b then true else if b < a then false else lexLtB as bs

/-- Go `x < y` on strings. -/
def goStrLt (a b : String) : Bool := lexLtB a.data b.data

/-- The Go sort predicate `entries[i].CreatedAt > entries[j].CreatedAt`
seen as the resulting order: an earlier element's creation string is not
below a later one's. -/
def entryGE (a b : Entry) : Prop := goStrLt a.createdAt b.createdAt = false

instance : DecidableRel entryGE := fun a b =>
  inferInstanceAs (Decidable (goStrLt a.createdAt b.createdAt = false))

/-- `sort.Slice(entries, less)`: any sequence ordered by the comparison;
modelled by insertion sort. -/
def sortEntriesDesc (entries : List Entry) : List Entry :=
  List.insertionSort entryGE entries

/-- The `<item>` built from an entry whose creation timestamp parsed to
`t`. -/
def entryToItem (e : Entry) (t : GoTime) : RSSItem :=
  { id := e.id, title := e.title, link := e.link,
    pubDate := formatRFC1123Z t, description := e.content,
    categories := e.categories }

/-- `buildFeed`, up to the externalized file write: sort descending by
creation string, derive `lastBuildDate` from the first sorted entry, skip
entries whose creation timestamp does not parse. -/
def buildFeed (site : Site) (entries : List Entry) : RSSDoc :=
  let sorted := sortEntriesDesc entries
  let lastBuild : Option String :=
    match sorted with
    | [] => none
    | e :: _ => (parseTime e.createdAt).map formatRFC1123Z
  let items := sorted.filterMap (fun e =>
    (parseTime e.createdAt).map (fun t => entryToItem e t))
  { version := "2.0",
    channel := { title := site.title, link := site.link,
                 description := site.description,
                 lastBuildDate := lastBuild, items := items } }

/-! ## The run driver (`RunFeedUpdate`) -/

/-- One provider poll as seen by the loop: the provider descriptor, the
external fetch outcome and the clock readings of this iteration. -/
structure ProviderRun where
  name : String
  translate : Bool
  fetched : Except String FItem
  nowNanos : Nat := 0
  now : GoTime := ⟨0, 0⟩
  deriving Repr

/-- The loop state after processing a list of providers. -/
structure LoopResult where
  entries : List Entry
  state : State
  updated : Bool
  firstErr : Option String
  deriving DecidableEq, Repr

/-- The provider loop of `RunFeedUpdate`: errors are recorded (first one
kept) and do not stop the remaining providers. -/
def processProviders (tf : String → Except String String) :
    List ProviderRun → List Entry → State → Bool → Option String → LoopResult
  | [], entries, state, updated, firstErr => ⟨entries, state, updated, firstErr⟩
  | p :: rest, entries, state, updated, firstErr =>
    match addLatestFromProvider tf p.nowNanos p.now ⟨p.name, p.translate⟩
        p.fetched entries state with
    | .error e =>
      processProviders tf rest entries state updated
        (if firstErr = none then some e else firstErr)
    | .ok r => processProviders tf rest r.2.1 r.2.2 (updated || r.1) firstErr

deriving instance DecidableEq for Except

/-- Observable outcome of `RunFeedUpdate`: the returned value, the printed
message, and the externalized persistence effects (JSON writes and the
rebuilt document). -/
structure RunOutcome where
  result : Except String Unit
  updated : Bool
  message : Option String
  wroteState : Option State
  wroteEntries : Option (List Entry)
  feedDoc : Option RSSDoc
  deriving DecidableEq, Repr

/-- `RunFeedUpdate`, after the externalized loading of `site`, `state` and
`entries`: poll every provider, then fail with the first error only when
nothing was updated, report "no update" when nothing changed, and otherwise
persist the state and entries and rebuild the document. -/
def runFeedUpdate (tf : String → Except String String) (site : Site)
    (state0 : State) (entries0 : List Entry) (ps : List ProviderRun) :
    RunOutcome :=
  let r := processProviders tf ps entries0 state0 false none
  if r.updated = false then
    match r.firstErr with
    | some e => ⟨.error e, false, none, none, none, none⟩
    | none => ⟨.ok (), false, some "no update detected", none, none, none⟩
  else
    ⟨.ok (), true, some "update detected", some r.state, some r.entries,
      some (buildFeed site r.entries)⟩

/-- The fetch error of one poll, if any (`addLatestFromProvider` fails
exactly when the fetch does, with the same message). -/
def provErr (p : ProviderRun) : Option String :=
  match p.fetched with
  | .error e => some e
  | .ok _ => none

/-! ## The wordpress-com adapter (provider sources) -/

structure WPComItem where
  title : String := ""
  link : String := ""
  guid : String := ""
  pubDate : String := ""
  description : String := ""
  contentEncoded : String := ""
  categories : List String := []
  deriving DecidableEq, Repr

structure WPComChannel where
  items : List WPComItem := []
  deriving DecidableEq, Repr

structure WPComFeed where
  channel : WPComChannel := {}
  deriving DecidableEq, Repr

/-- `LatestWordPressComBlog`, after the externalized fetch and XML decode:
an empty feed yields the zero item; otherwise the first channel item is
returned, with the plain `description` as its content. -/
def latestWordPressComBlog (decoded : Except String WPComFeed) :
    Except String FItem :=
  match decoded with
  | .error e => .error e
  | .ok feed =>
    match feed.channel.items with
    | [] => .ok {}
    | item :: _ =>
      .ok { title := item.title, link := item.link, guid := item.guid,
            pubDate := item.pubDate, description := item.description,
            categories := item.categories }

/-- `pickEncodedOrDescription`. -/
def pickEncodedOrDescription (encoded description : String) : String :=
  let encoded := trimSpace encoded
  if encoded ≠ "" then encoded
  else trimSpace description

/-! ## Media-markup normalization (wordpress-tv provider source)

The source compiles three regular expressions.  `iframePattern` is
`(?is)<iframe\b[^>]*>.*?</iframe>`, which is valid RE2 and is embedded
below as a direct scanner.  The width and height patterns
`(?i)\swidth\s*=\s*(['"]?)[^'"\s>]*\1` end in the backreference `\1`,
which Go's RE2 engine rejects (`regexp.MustCompile` panics with an
invalid-escape error during package initialization, so the shipped binary
cannot start).  The scanners below embed the evident intended semantics of
those patterns, backreference included, to state what the normalization was
meant to produce. -/

def squote : Char := Char.ofNat 39

def dquote : Char := Char.ofNat 34

/-- RE2 `\s`. -/
def isPerlSpace (c : Char) : Bool :=
  c = ' ' || c = '\t' || c = '\n' || c = Char.ofNat 12 || c = '\r'

/-- RE2 `\w`, for the word boundary after `<iframe`. -/
def isWordChar (c : Char) : Bool :=
  isDigitC c || (97 ≤ c.toLower.toNat && c.toLower.toNat ≤ 122) || c = '_'

/-- The attribute value class `[^'"\s>]`. -/
def isAttrValChar (c : Char) : Bool :=
  !(c = squote || c = dquote || c = '>' || isPerlSpace c)

def countWhileL (p : Char → Bool) (cs : List Char) : Nat :=
  (cs.takeWhile p).length

/-- Length of a match of `NAME\s*=\s*(['"]?)[^'"\s>]*\1` at the head of
`cs` (the mandatory `\s` before `NAME` is consumed by the caller).  When an
opening quote is never closed the engine falls back to capturing the empty
alternative, ending the match before the quote. -/
def attrMatchLen (name cs : List Char) : Option Nat :=
  match stripCI name cs with
  | none => none
  | some r1 =>
    let w1 := countWhileL isPerlSpace r1
    match r1.drop w1 with
    | '=' :: r2 =>
      let w2 := countWhileL isPerlSpace r2
      let pos := name.length + w1 + 1 + w2
      let r3 := r2.drop w2
      match r3 with
      | q :: r4 =>
        if q = squote || q = dquote then
          let run := countWhileL isAttrValChar r4
          match r4.drop run with
          | q2 :: _ => if q2 = q then some (pos + 1 + run + 1) else some pos
          | [] => some pos
        else some (pos + countWhileL isAttrValChar r3)
      | [] => some pos
    | _ => none

/-- `ReplaceAllString(·, "")` for the sizing-attribute pattern: non
overlapping leftmost matches are removed.  The fuel argument (initially the
list length, which every step consumes at least one character of) keeps the
recursion structural; the fuel never runs out. -/
def replaceAttrFuel (name : List Char) : Nat → List Char → List Char
  | 0, cs => cs
  | _ + 1, [] => []
  | fuel + 1, c :: cs =>
    if isPerlSpace c then
      match attrMatchLen name cs with
      | some n => replaceAttrFuel name fuel (cs.drop n)
      | none => c :: replaceAttrFuel name fuel cs
    else c :: replaceAttrFuel name fuel cs

def replaceAttr (name cs : List Char) : List Char :=
  replaceAttrFuel name cs.length cs

/-- Go `strings.Index(value, ">")` on the character list. -/
def indexOfGtL : List Char → Option Nat
  | [] => none
  | c :: cs => if c = '>' then some 0 else (indexOfGtL cs).map (· + 1)

/-- `normalizeIframe`: strip sizing attributes from the opening tag and
append the responsive ones, keeping the remainder verbatim. -/
def normalizeIframe (value : String) : String :=
  if value = "" then ""
  else
    match indexOfGtL value.data with
    | none => value
    | some tagEnd =>
      let rest : String := ⟨value.data.drop tagEnd⟩
      let openTag : String := ⟨value.data.take tagEnd⟩
      let openTag : String := ⟨replaceAttr "width".data openTag.data⟩
      let openTag : String := ⟨replaceAttr "height".data openTag.data⟩
      let openTag := trimSpace openTag
      if !goHasSuffix openTag "<iframe" && !goContains openTag "<iframe" then value
      else openTag ++ " width=\"100%\" height=\"auto\"" ++ rest

/-- First index (case-insensitively) of `pat` in `cs`. -/
def findCIIdx (pat : List Char) (cs : List Char) : Option Nat :=
  if (stripCI pat cs).isSome then some 0
  else
    match cs with
    | [] => none
    | _ :: tl => (findCIIdx pat tl).map (· + 1)

/-- Length of a match of `(?is)<iframe\b[^>]*>.*?</iframe>` at the head of
`cs`: the literal tag name up to a word boundary, greedily anything but
`>`, the closing bracket, then lazily up to the first `</iframe>`. -/
def iframeMatchLen (cs : List Char) : Option Nat :=
  match stripCI "<iframe".data cs with
  | none => none
  | some r =>
    let boundaryOk :=
      match r with
      | [] => true
      | c :: _ => !isWordChar c
    if boundaryOk then
      let run := countWhileL (fun c => c ≠ '>') r
      match r.drop run with
      | '>' :: r2 =>
        (findCIIdx "</iframe>".data r2).map (fun k => 7 + run + 1 + k + 9)
      | _ => none
    else none

/-- `iframePattern.FindString`: the leftmost match. -/
def findIframeL : List Char → Option (List Char)
  | [] => none
  | c :: cs =>
    match iframeMatchLen (c :: cs) with
    | some n => some ((c :: cs).take n)
    | none => findIframeL cs

/-- `extractFirstIframe`: the first embedded frame of the content,
normalized; no frame yields the empty string. -/
def extractFirstIframe (value : String) : String :=
  let value := trimSpace value
  if value = "" then ""
  else
    let m : String := ⟨(findIframeL value.data).getD []⟩
    normalizeIframe (trimSpace m)

/-- The instant denoted by an entry's creation timestamp (an arbitrary
default for unparseable ones; only used under parseability hypotheses). -/
def entryInstantD (e : Entry) : GoTime :=
  (parseTime e.createdAt).getD ⟨0, 0⟩

/-! # Theorems -/

/-! ## Basic lemmas about trimming, the state map and identities -/

theorem mem_dropWhile_of_not {p : Char → Bool} {l : List Char} {x : Char}
    (hx : x ∈ l) (hp : p x = false) : x ∈ l.dropWhile p := by
  induction l with
  | nil => cases hx
  | cons a tl ih =>
    rw [List.dropWhile_cons]
    by_cases ha : p a = true
    · simp only [ha, if_true]
      rcases List.mem_cons.mp hx with rfl | hmem
      · rw [hp] at ha; cases ha
      · exact ih hmem
    · simp only [ha, if_false]
      exact hx

/-- A string containing a non-space character does not trim to empty. -/
theorem trimSpace_ne_empty {s : String} {c : Char} (hc : c ∈ s.data)
    (hsp : isSpaceGo c = false) : trimSpace s ≠ "" := by
  intro h
  unfold trimSpace at h
  have hdata : ((s.data.dropWhile isSpaceGo).reverse.dropWhile isSpaceGo).reverse = [] := by
    have := congrArg String.data h
    simpa using this
  have h1 : c ∈ s.data.dropWhile isSpaceGo := mem_dropWhile_of_not hc hsp
  have h2 : c ∈ (s.data.dropWhile isSpaceGo).reverse := List.mem_reverse.mpr h1
  have h3 : c ∈ (s.data.dropWhile isSpaceGo).reverse.dropWhile isSpaceGo :=
    mem_dropWhile_of_not h2 hsp
  rw [List.reverse_eq_nil_iff.mp hdata] at h3
  cases h3

/-! ## The byte-wise string order -/

theorem lexLtB_irrefl : ∀ x : List Char, lexLtB x x = false
  | [] => rfl
  | a :: as => by
    simp only [lexLtB, lt_irrefl a, if_false]
    exact lexLtB_irrefl as

theorem lexLtB_cons_elim {a b : Char} {as bs : List Char}
    (h : lexLtB (a :: as) (b :: bs) = true) :
    a < b ∨ (a = b ∧ lexLtB as bs = true) := by
  by_cases h1 : a < b
  · exact Or.inl h1
  · by_cases h2 : b < a
    · simp [lexLtB, h1, h2] at h
    · refine Or.inr ⟨le_antisymm (not_lt.mp h2) (not_lt.mp h1), ?_⟩
      simpa [lexLtB, h1, h2] using h

theorem lexLtB_asymm : ∀ x y : List Char, lexLtB x y = true → lexLtB y x = false
  | [], [], h => by simp [lexLtB] at h
  | [], _ :: _, _ => rfl
  | _ :: _, [], h => by simp [lexLtB] at h
  | a :: as, b :: bs, h => by
    rcases lexLtB_cons_elim h with hab | ⟨rfl, h'⟩
    · simp [lexLtB, lt_asymm hab, hab]
    · simp only [lexLtB, lt_irrefl a, if_false]
      exact lexLtB_asymm as bs h'

theorem lexLtB_trans : ∀ x y z : List Char,
    lexLtB x y = true → lexLtB y z = true → lexLtB x z = true
  | _, _, [], _, hyz => by simp [lexLtB] at hyz
  | [], y, _ :: _, _, _ => rfl
  | _ :: _, [], _, hxy, _ => by simp [lexLtB] at hxy
  | a :: as, b :: bs, c :: cs, hxy, hyz => by
    rcases lexLtB_cons_elim hxy with hab | ⟨rfl, hxy'⟩ <;>
      rcases lexLtB_cons_elim hyz with hbc | ⟨heq, hyz'⟩
    · simp [lexLtB, lt_trans hab hbc]
    · rw [← heq]
      simp [lexLtB, hab]
    · simp [lexLtB, hbc]
    · rw [← heq]
      simp only [lexLtB, lt_irrefl a, if_false]
      exact lexLtB_trans as bs cs hxy' hyz'

/-- Trichotomy: when `x` is not below `y`, either they are equal or `y` is
below `x`. -/
theorem lexLtB_conn : ∀ x y : List Char,
    lexLtB x y = false → x = y ∨ lexLtB y x = true
  | [], [], _ => Or.inl rfl
  | [], _ :: _, h => by simp [lexLtB] at h
  | _ :: _, [], _ => Or.inr rfl
  | a :: as, b :: bs, h => by
    by_cases h1 : a < b
    · simp [lexLtB, h1] at h
    · by_cases h2 : b < a
      · exact Or.inr (by simp [lexLtB, h2])
      · have heq : a = b := le_antisymm (not_lt.mp h2) (not_lt.mp h1)
        subst heq
        have h' : lexLtB as bs = false := by simpa [lexLtB, h1, h2] using h
        rcases lexLtB_conn as bs h' with rfl | hlt
        · exact Or.inl rfl
        · refine Or.inr ?_
          simp only [lexLtB, lt_irrefl a, if_false]
          exact hlt

theorem entryGE_total : IsTotal Entry entryGE := by
  constructor
  intro a b
  cases h : goStrLt a.createdAt b.createdAt
  · exact Or.inl h
  · exact Or.inr (lexLtB_asymm _ _ h)

theorem entryGE_trans : IsTrans Entry entryGE := by
  constructor
  intro a b c hab hbc
  unfold entryGE goStrLt at hab hbc ⊢
  cases hxz : lexLtB a.createdAt.data c.createdAt.data
  · rfl
  · exfalso
    rcases lexLtB_conn _ _ hab with heq | hba
    · rw [heq] at hxz
      rw [hxz] at hbc
      cases hbc
    · have := lexLtB_trans _ _ _ hba hxz
      rw [this] at hbc
      cases hbc

theorem find_map_key (l : List (String × String)) (k v : String)
    (h : l.any (fun p => p.1 = k) = true) :
    (l.map (fun p => if p.1 = k then (k, v) else p)).find? (fun p => p.1 = k) =
      some (k, v) := by
  induction l with
  | nil => simp at h
  | cons a tl ih =>
    by_cases hc : a.1 = k
    · simp [hc]
    · simp only [List.any_cons, Bool.or_eq_true, decide_eq_true_eq] at h
      rcases h with h | h
      · exact absurd h hc
      · simp only [List.map_cons, if_neg hc, List.find?_cons, decide_eq_false hc]
        exact ih h

theorem map_key_absent (l : List (String × String)) (k v : String)
    (h : l.any (fun p => p.1 = k) = false) :
    (l.map (fun p => if p.1 = k then (k, v) else p)) = l := by
  induction l with
  | nil => rfl
  | cons a tl ih =>
    simp only [List.any_cons, Bool.or_eq_false_iff, decide_eq_false_iff_not] at h
    simp only [List.map_cons, if_neg h.1, List.cons.injEq, true_and]
    apply ih
    simpa using h.2

/-- Writing the same value twice into the state map is the same as writing
it once. -/
theorem setLatest_idem (s : State) (k v : String) :
    setLatest (setLatest s k v) k v = setLatest s k v := by
  unfold setLatest
  by_cases h : s.latest.any (fun p => p.1 = k) = true
  · simp only [h, if_true]
    have hany : ((s.latest.map (fun p => if p.1 = k then (k, v) else p)).any
        (fun p => p.1 = k)) = true := by
      rw [List.any_map]
      rcases List.any_eq_true.mp h with ⟨p0, hp0, hp0k⟩
      refine List.any_eq_true.mpr ⟨p0, hp0, ?_⟩
      simp only [decide_eq_true_eq] at hp0k
      by_cases hc : p0.1 = k <;> simp [Function.comp, hc] at hp0k ⊢
    simp only [hany, if_true, State.mk.injEq]
    rw [List.map_map]
    apply List.map_congr_left
    intro p _
    by_cases hc : p.1 = k <;> simp [Function.comp, hc]
  · have h' : s.latest.any (fun p => p.1 = k) = false := by
      rwa [Bool.not_eq_true] at h
    simp only [h', Bool.false_eq_true, if_false]
    have hany : ((s.latest ++ [(k, v)]).any (fun p => p.1 = k)) = true := by
      simp [List.any_append]
    simp only [hany, if_true, State.mk.injEq]
    rw [List.map_append]
    rw [map_key_absent _ _ _ h']
    simp

/-- After a state write, the written key reads back the written value. -/
theorem getLatest_setLatest (s : State) (k v : String) :
    getLatest (setLatest s k v) k = some v := by
  unfold getLatest setLatest
  by_cases h : s.latest.any (fun p => p.1 = k) = true
  · simp only [h, if_true]
    rw [find_map_key _ _ _ h]
    rfl
  · have h' : s.latest.any (fun p => p.1 = k) = false := by
      rwa [Bool.not_eq_true] at h
    simp only [h', Bool.false_eq_true, if_false]
    rw [List.find?_append]
    have hnone : s.latest.find? (fun p => p.1 = k) = none := by
      rw [List.find?_eq_none]
      intro x hx
      have := (List.any_eq_false.mp h') x hx
      simpa using this
    simp [hnone]

/-- The identity assigned when the item has a usable basis (publish date or
link) does not depend on the clock. -/
theorem pickEntryID_indep (n1 n2 : Nat) (name : String) (item : FItem)
    (hbase : trimSpace item.pubDate ≠ "" ∨ trimSpace item.link ≠ "") :
    pickEntryID n1 name item = pickEntryID n2 name item := by
  have hbar : ∀ base : String, base ≠ "" →
      hashString n1 (name ++ "|" ++ base) = hashString n2 (name ++ "|" ++ base) := by
    intro base _
    have hne : trimSpace (name ++ "|" ++ base) ≠ "" := by
      apply trimSpace_ne_empty (c := '|')
      · have hdata : (name ++ "|" ++ base).data = name.data ++ '|' :: base.data := by
          simp [String.data_append]
        rw [hdata]
        simp
      · rfl
    simp [hashString, hne]
  by_cases hp : trimSpace item.pubDate = ""
  · rcases hbase with hb | hb
    · exact absurd hp hb
    · simp only [pickEntryID, hp, if_true, if_pos]
      simp only [hb, if_false]
      exact hbar _ hb
  · simp only [pickEntryID, hp, if_false]
    exact hbar _ hp

theorem idExists_append_self (l : List Entry) (e : Entry) :
    idExists (l ++ [e]) e.id = true := by
  simp [idExists, List.any_append]

theorem idExists_false_all {l : List Entry} {id : String}
    (h : idExists l id = false) : ∀ e ∈ l, e.id ≠ id := by
  intro e he
  have := (List.any_eq_false.mp h) e he
  simpa using this

/-- `addLatestFromProvider` on a successful fetch with a usable title,
written out. -/
theorem addLatest_ok_eq (tf : String → Except String String) (n : Nat)
    (t : GoTime) (p : FeedProvider) (item : FItem) (entries : List Entry)
    (state : State) (htitle : trimSpace item.title ≠ "") :
    addLatestFromProvider tf n t p (.ok item) entries state =
      (let item2 : FItem := { item with categories := cleanCategories item.categories }
       let id := pickEntryID n p.name item2
       if idExists entries id then .ok (false, entries, setLatest state p.name id)
       else .ok (true, entries ++
         [{ id := id, title := item2.title, link := item2.link,
            content := translateContent tf item2.description p.translate,
            createdAt := pickEntryTime t item2, categories := item2.categories }],
         setLatest state p.name id)) := by
  simp only [addLatestFromProvider, if_neg htitle]

/-! ## C1: reconciliation is idempotent -/

/-- C1: for a provider whose fetched item has a non-empty trimmed title and
a non-empty trimmed publish date or link, reconciling a second time against
the entry list and state left by the first run creates nothing
(`created = false`) and leaves both the entry list and the state (hence
`state[provider]`) unchanged, for any clock readings and translation
capability. -/
theorem addLatest_second_run_noop
    (tf tf2 : String → Except String String) (n1 n2 : Nat) (t1 t2 : GoTime)
    (p : FeedProvider) (item : FItem) (entries : List Entry) (state : State)
    (htitle : trimSpace item.title ≠ "")
    (hbase : trimSpace item.pubDate ≠ "" ∨ trimSpace item.link ≠ "") :
    ∃ c1 e1 s1,
      addLatestFromProvider tf n1 t1 p (.ok item) entries state = .ok (c1, e1, s1) ∧
      addLatestFromProvider tf2 n2 t2 p (.ok item) e1 s1 = .ok (false, e1, s1) := by
  have hbase2 : trimSpace (FItem.pubDate { item with categories := cleanCategories item.categories }) ≠ "" ∨
      trimSpace (FItem.link { item with categories := cleanCategories item.categories }) ≠ "" := hbase
  have hid := pickEntryID_indep n2 n1 p.name
    { item with categories := cleanCategories item.categories } hbase2
  rw [addLatest_ok_eq tf n1 t1 p item entries state htitle]
  simp only []
  by_cases hex : idExists entries
      (pickEntryID n1 p.name { item with categories := cleanCategories item.categories }) = true
  · refine ⟨false, entries, setLatest state p.name _, by rw [if_pos hex], ?_⟩
    rw [addLatest_ok_eq tf2 n2 t2 p item entries _ htitle]
    simp only [hid]
    rw [if_pos hex, setLatest_idem]
  · refine ⟨true, _, setLatest state p.name _, by rw [if_neg hex], ?_⟩
    rw [addLatest_ok_eq tf2 n2 t2 p item _ _ htitle]
    simp only [hid]
    rw [if_pos, setLatest_idem]
    exact idExists_append_self entries _

/-- Witness for C1 at a concrete provider, item, entry list and state. -/
theorem addLatest_second_run_noop_witness :
    trimSpace "New release" ≠ "" ∧
    (trimSpace "Mon, 02 Jan 2006 15:04:05 +0000" ≠ "" ∨ trimSpace "" ≠ "") ∧
    (∃ c1 e1 s1,
      addLatestFromProvider (fun s => .ok s) 7 ⟨60, 0⟩ ⟨"wordpress-releases", true⟩
        (.ok { title := "New release", link := "https://example.org/a",
               pubDate := "Mon, 02 Jan 2006 15:04:05 +0000" }) [] ⟨[]⟩ = .ok (c1, e1, s1) ∧
      addLatestFromProvider (fun s => .ok s) 9 ⟨61, 0⟩ ⟨"wordpress-releases", true⟩
        (.ok { title := "New release", link := "https://example.org/a",
               pubDate := "Mon, 02 Jan 2006 15:04:05 +0000" }) e1 s1 = .ok (false, e1, s1)) :=
  ⟨by decide, by decide,
    addLatest_second_run_noop (fun s => .ok s) (fun s => .ok s) 7 9 ⟨60, 0⟩ ⟨61, 0⟩
      ⟨"wordpress-releases", true⟩
      { title := "New release", link := "https://example.org/a",
        pubDate := "Mon, 02 Jan 2006 15:04:05 +0000" } [] ⟨[]⟩
      (by decide) (.inl (by decide))⟩

/-! ## C3: identities stay unique, entries are only appended -/

/-- C3: reconciling any fetch outcome against an entry list with pairwise
distinct identities yields a list that still has pairwise distinct
identities and extends the old list (old entries are kept verbatim, in
place; nothing is updated or deleted). -/
theorem addLatest_append_only_unique
    (tf : String → Except String String) (n : Nat) (t : GoTime)
    (p : FeedProvider) (fetched : Except String FItem)
    (entries : List Entry) (state : State)
    (hdist : (entries.map Entry.id).Pairwise (· ≠ ·)) :
    ∀ c e2 s2, addLatestFromProvider tf n t p fetched entries state = .ok (c, e2, s2) →
      (∃ rest, e2 = entries ++ rest) ∧ (e2.map Entry.id).Pairwise (· ≠ ·) := by
  intro c e2 s2 h
  match fetched with
  | .error e => simp [addLatestFromProvider] at h
  | .ok item =>
    by_cases htitle : trimSpace item.title = ""
    · simp only [addLatestFromProvider, if_pos htitle, Except.ok.injEq] at h
      obtain ⟨rfl, rfl, rfl⟩ := h
      exact ⟨⟨[], by simp⟩, hdist⟩
    · rw [addLatest_ok_eq tf n t p item entries state htitle] at h
      simp only [] at h
      by_cases hex : idExists entries
          (pickEntryID n p.name { item with categories := cleanCategories item.categories }) = true
      · rw [if_pos hex] at h
        simp only [Except.ok.injEq] at h
        obtain ⟨rfl, rfl, rfl⟩ := h
        exact ⟨⟨[], by simp⟩, hdist⟩
      · rw [if_neg hex] at h
        simp only [Except.ok.injEq] at h
        obtain ⟨rfl, rfl, rfl⟩ := h
        refine ⟨⟨_, rfl⟩, ?_⟩
        rw [List.map_append]
        rw [List.pairwise_append]
        refine ⟨hdist, by simp, ?_⟩
        intro a ha b hb
        simp only [List.map_cons, List.map_nil, List.mem_singleton] at hb
        subst hb
        rcases List.mem_map.mp ha with ⟨e0, he0, rfl⟩
        have hne := idExists_false_all (by simpa using hex) e0 he0
        simpa using hne

/-- Witness for C3 at a concrete duplicate-free entry list. -/
theorem addLatest_append_only_unique_witness :
    (([⟨"a", "t", "", "", "", []⟩, ⟨"b", "u", "", "", "", []⟩] :
        List Entry).map Entry.id).Pairwise (· ≠ ·) ∧
    (∀ c e2 s2,
      addLatestFromProvider (fun s => .ok s) 0 ⟨0, 0⟩ ⟨"wordpress-tv", false⟩
        (.ok { title := " " }) [⟨"a", "t", "", "", "", []⟩, ⟨"b", "u", "", "", "", []⟩]
        ⟨[]⟩ = .ok (c, e2, s2) →
      (∃ rest, e2 = [⟨"a", "t", "", "", "", []⟩, ⟨"b", "u", "", "", "", []⟩] ++ rest) ∧
        (e2.map Entry.id).Pairwise (· ≠ ·)) :=
  ⟨by decide,
    addLatest_append_only_unique (fun s => .ok s) 0 ⟨0, 0⟩ ⟨"wordpress-tv", false⟩
      (.ok { title := " " }) [⟨"a", "t", "", "", "", []⟩, ⟨"b", "u", "", "", "", []⟩]
      ⟨[]⟩ (by decide)⟩

/-! ## C4: state is refreshed on every successful fetch — corrected

The code skips the state write when the fetched item's trimmed title is
empty, so a successful fetch does not always mutate `state[provider]`. -/

/-- Counterexample to C4 as stated: a successful fetch whose item has a
blank title leaves the state untouched — `state[provider]` remains unset
rather than being set to the computed identity. -/
theorem addLatest_empty_title_keeps_state :
    addLatestFromProvider (fun s => .ok s) 0 ⟨0, 0⟩ ⟨"wordpress-tv", false⟩
      (.ok { title := " " }) [] ⟨[]⟩ = .ok (false, [], ⟨[]⟩) ∧
    getLatest ⟨[]⟩ "wordpress-tv" = none := by
  constructor
  · rfl
  · rfl

/-- C4 amended: on a successful fetch whose item has a non-empty trimmed
title, `state[provider]` is always set to the computed identity, whether or
not an entry is created; in particular a duplicate identity still refreshes
the marker and returns `created = false` with the entry list unchanged. -/
theorem addLatest_sets_state
    (tf : String → Except String String) (n : Nat) (t : GoTime)
    (p : FeedProvider) (item : FItem) (entries : List Entry) (state : State)
    (htitle : trimSpace item.title ≠ "") :
    ∃ c e2 s2,
      addLatestFromProvider tf n t p (.ok item) entries state = .ok (c, e2, s2) ∧
      getLatest s2 p.name =
        some (pickEntryID n p.name { item with categories := cleanCategories item.categories }) ∧
      (idExists entries
          (pickEntryID n p.name { item with categories := cleanCategories item.categories }) = true →
        c = false ∧ e2 = entries) := by
  rw [addLatest_ok_eq tf n t p item entries state htitle]
  simp only []
  by_cases hex : idExists entries
      (pickEntryID n p.name { item with categories := cleanCategories item.categories }) = true
  · exact ⟨false, entries, _, by rw [if_pos hex], getLatest_setLatest _ _ _,
      fun _ => ⟨rfl, rfl⟩⟩
  · exact ⟨true, _, _, by rw [if_neg hex], getLatest_setLatest _ _ _,
      fun hc => absurd hc hex⟩

/-- Witness for the amended C4 at a concrete item. -/
theorem addLatest_sets_state_witness :
    trimSpace "Video" ≠ "" ∧
    (∃ c e2 s2,
      addLatestFromProvider (fun s => .ok s) 3 ⟨5, 0⟩ ⟨"wordpress-tv", false⟩
        (.ok { title := "Video", link := "https://example.org/v" }) [] ⟨[]⟩ =
          .ok (c, e2, s2) ∧
      getLatest s2 "wordpress-tv" =
        some (pickEntryID 3 "wordpress-tv"
          { title := "Video", link := "https://example.org/v", categories := cleanCategories [] }) ∧
      (idExists []
          (pickEntryID 3 "wordpress-tv"
            { title := "Video", link := "https://example.org/v", categories := cleanCategories [] }) = true →
        c = false ∧ e2 = [])) :=
  ⟨by decide,
    addLatest_sets_state (fun s => .ok s) 3 ⟨5, 0⟩ ⟨"wordpress-tv", false⟩
      { title := "Video", link := "https://example.org/v" } [] ⟨[]⟩ (by decide)⟩

/-! ## The provider loop -/

/-- Reconciliation on a successful fetch never reports an error. -/
theorem addLatest_ok_total (tf : String → Except String String) (n : Nat)
    (t : GoTime) (p : FeedProvider) (item : FItem) (entries : List Entry)
    (state : State) :
    ∃ r, addLatestFromProvider tf n t p (.ok item) entries state = .ok r := by
  by_cases h : trimSpace item.title = ""
  · exact ⟨(false, entries, state), by simp [addLatestFromProvider, h]⟩
  · by_cases hex : idExists entries
        (pickEntryID n p.name { item with categories := cleanCategories item.categories }) = true
    · exact ⟨_, by rw [addLatest_ok_eq _ _ _ _ _ _ _ h]; simp only []; rw [if_pos hex]⟩
    · exact ⟨_, by rw [addLatest_ok_eq _ _ _ _ _ _ _ h]; simp only []; rw [if_neg hex]⟩

/-- Reconciliation only ever appends to the entry list. -/
theorem addLatest_entries_extend (tf : String → Except String String) (n : Nat)
    (t : GoTime) (p : FeedProvider) (fetched : Except String FItem)
    (entries : List Entry) (state : State) :
    ∀ c e2 s2, addLatestFromProvider tf n t p fetched entries state = .ok (c, e2, s2) →
      ∃ rest, e2 = entries ++ rest := by
  intro c e2 s2 h
  match fetched with
  | .error e => simp [addLatestFromProvider] at h
  | .ok item =>
    by_cases htitle : trimSpace item.title = ""
    · simp only [addLatestFromProvider, if_pos htitle, Except.ok.injEq] at h
      obtain ⟨rfl, rfl, rfl⟩ := h
      exact ⟨[], by simp⟩
    · rw [addLatest_ok_eq tf n t p item entries state htitle] at h
      simp only [] at h
      by_cases hex : idExists entries
          (pickEntryID n p.name { item with categories := cleanCategories item.categories }) = true
      · rw [if_pos hex] at h
        simp only [Except.ok.injEq] at h
        obtain ⟨rfl, rfl, rfl⟩ := h
        exact ⟨[], by simp⟩
      · rw [if_neg hex] at h
        simp only [Except.ok.injEq] at h
        obtain ⟨rfl, rfl, rfl⟩ := h
        exact ⟨_, rfl⟩

/-- The first recorded error of the loop is the first fetch error of the
providers (reconciliation fails exactly when its fetch does). -/
theorem processProviders_firstErr (tf : String → Except String String)
    (ps : List ProviderRun) :
    ∀ entries state u fe,
      (processProviders tf ps entries state u fe).firstErr =
        match fe with
        | some e => some e
        | none => (ps.filterMap provErr).head? := by
  induction ps with
  | nil =>
    intro entries state u fe
    cases fe <;> simp [processProviders]
  | cons p rest ih =>
    intro entries state u fe
    match hf : p.fetched with
    | .error e =>
      have hadd : addLatestFromProvider tf p.nowNanos p.now ⟨p.name, p.translate⟩
          p.fetched entries state = .error e := by
        rw [hf]; rfl
      simp only [processProviders, hadd]
      rw [ih]
      cases fe with
      | none => simp [List.filterMap_cons, provErr, hf]
      | some e0 => simp [List.filterMap_cons, provErr, hf]
    | .ok item =>
      obtain ⟨r, hr⟩ := addLatest_ok_total tf p.nowNanos p.now ⟨p.name, p.translate⟩
        item entries state
      have hadd : addLatestFromProvider tf p.nowNanos p.now ⟨p.name, p.translate⟩
          p.fetched entries state = .ok r := by rw [hf]; exact hr
      simp only [processProviders, hadd]
      rw [ih]
      cases fe <;> simp [List.filterMap_cons, provErr, hf]

/-- The loop only ever appends to the entry list. -/
theorem processProviders_prefix (tf : String → Except String String)
    (ps : List ProviderRun) :
    ∀ entries state u fe,
      ∃ rest, (processProviders tf ps entries state u fe).entries = entries ++ rest := by
  induction ps with
  | nil =>
    intro entries state u fe
    exact ⟨[], by simp [processProviders]⟩
  | cons p rest ih =>
    intro entries state u fe
    match hf : p.fetched with
    | .error e =>
      have hadd : addLatestFromProvider tf p.nowNanos p.now ⟨p.name, p.translate⟩
          p.fetched entries state = .error e := by rw [hf]; rfl
      simp only [processProviders, hadd]
      exact ih entries state u _
    | .ok item =>
      obtain ⟨r, hr⟩ := addLatest_ok_total tf p.nowNanos p.now ⟨p.name, p.translate⟩
        item entries state
      have hadd : addLatestFromProvider tf p.nowNanos p.now ⟨p.name, p.translate⟩
          p.fetched entries state = .ok r := by rw [hf]; exact hr
      simp only [processProviders, hadd]
      obtain ⟨r0, hr0⟩ := addLatest_entries_extend tf p.nowNanos p.now
        ⟨p.name, p.translate⟩ p.fetched entries state r.1 r.2.1 r.2.2
        (by rw [hadd])
      obtain ⟨r1, hr1⟩ := ih r.2.1 r.2.2 (u || r.1) fe
      exact ⟨r0 ++ r1, by rw [hr1, hr0, List.append_assoc]⟩

/-- The first recorded error of a loop started without one. -/
theorem processProviders_firstErr_none (tf : String → Except String String)
    (ps : List ProviderRun) (entries : List Entry) (state : State) (u : Bool) :
    (processProviders tf ps entries state u none).firstErr =
      (ps.filterMap provErr).head? := by
  have h := processProviders_firstErr tf ps entries state u none
  simpa using h

/-- The run outcome's `updated` flag is the loop's. -/
theorem runFeedUpdate_updated (tf : String → Except String String) (site : Site)
    (st0 : State) (en0 : List Entry) (ps : List ProviderRun) :
    (runFeedUpdate tf site st0 en0 ps).updated =
      (processProviders tf ps en0 st0 false none).updated := by
  unfold runFeedUpdate
  cases hu : (processProviders tf ps en0 st0 false none).updated
  · simp only [hu, if_true]
    cases (processProviders tf ps en0 st0 false none).firstErr <;> rfl
  · simp [hu]

/-- The returned value of the run, in terms of the loop's update flag and
the providers' fetch errors. -/
theorem runFeedUpdate_result_eq (tf : String → Except String String)
    (site : Site) (st0 : State) (en0 : List Entry) (ps : List ProviderRun) :
    (runFeedUpdate tf site st0 en0 ps).result =
      (if (processProviders tf ps en0 st0 false none).updated = false then
        match (ps.filterMap provErr).head? with
        | some e => .error e
        | none => .ok ()
       else .ok ()) := by
  unfold runFeedUpdate
  cases hu : (processProviders tf ps en0 st0 false none).updated
  · simp only [hu, if_true]
    rw [← processProviders_firstErr_none tf ps en0 st0 false]
    cases (processProviders tf ps en0 st0 false none).firstErr <;> rfl
  · simp [hu]

/-! ## C2: when the whole run fails — corrected

The code returns the first provider error whenever no provider created a
new entry, even if another provider's poll succeeded without an update, so
"at least one provider succeeded" does not make the run succeed. -/

/-- Counterexample to C2 as stated: the first provider's fetch fails, the
second provider's poll succeeds (returning `created = false`), yet the run
returns the error. -/
theorem run_success_without_update_still_errors :
    (runFeedUpdate (fun s => .ok s) {} ⟨[]⟩ []
        [⟨"wordpress-releases", true, .error "boom", 0, ⟨0, 0⟩⟩,
         ⟨"wordpress-tv", false, .ok { title := " " }, 0, ⟨0, 0⟩⟩]).result =
      .error "boom" ∧
    addLatestFromProvider (fun s => .ok s) 0 ⟨0, 0⟩ ⟨"wordpress-tv", false⟩
      (.ok { title := " " }) [] ⟨[]⟩ = .ok (false, [], ⟨[]⟩) := by
  constructor
  · rfl
  · rfl

/-- C2 amended: the run returns an error exactly when no provider created a
new entry and some provider's fetch failed (the first such error is
returned); any created entry makes the run succeed regardless of other
providers' errors, and a run without fetch errors always succeeds. -/
theorem runFeedUpdate_error_characterization
    (tf : String → Except String String) (site : Site) (st0 : State)
    (en0 : List Entry) (ps : List ProviderRun) :
    (∀ err, (runFeedUpdate tf site st0 en0 ps).result = .error err ↔
      ((runFeedUpdate tf site st0 en0 ps).updated = false ∧
        (ps.filterMap provErr).head? = some err)) ∧
    ((runFeedUpdate tf site st0 en0 ps).updated = true →
      (runFeedUpdate tf site st0 en0 ps).result = .ok ()) ∧
    ((∀ p ∈ ps, provErr p = none) →
      (runFeedUpdate tf site st0 en0 ps).result = .ok ()) := by
  have hupd := runFeedUpdate_updated tf site st0 en0 ps
  have hres := runFeedUpdate_result_eq tf site st0 en0 ps
  refine ⟨fun err => ?_, fun h => ?_, fun hall => ?_⟩
  · rw [hres, hupd]
    cases hu : (processProviders tf ps en0 st0 false none).updated
    · simp only [if_true]
      cases hE : (ps.filterMap provErr).head? <;> simp [hE]
    · simp
  · rw [hupd] at h
    rw [hres, h]
    simp
  · have hnil : ps.filterMap provErr = [] := List.filterMap_eq_nil_iff.mpr hall
    rw [hres, hnil]
    cases (processProviders tf ps en0 st0 false none).updated <;> simp

/-- Witness for the amended C2: a single failing provider makes the run
return its error. -/
theorem runFeedUpdate_error_characterization_witness :
    (runFeedUpdate (fun s => .ok s) {} ⟨[]⟩ []
        [⟨"wordpress-releases", true, .error "boom", 0, ⟨0, 0⟩⟩]).result =
      .error "boom" :=
  ((runFeedUpdate_error_characterization (fun s => .ok s) {} ⟨[]⟩ []
      [⟨"wordpress-releases", true, .error "boom", 0, ⟨0, 0⟩⟩]).1 "boom").mpr
    (by exact ⟨rfl, rfl⟩)

/-! ## C5: persistence and rebuild — corrected

A successful run without a new entry ("no update detected") skips both the
JSON writes and the feed rebuild, so "any provider's poll succeeded" is not
enough for persistence. -/

/-- Counterexample to C5 as stated: the single provider's poll succeeds
(fetch ok, blank title, `created = false`), the run succeeds, yet neither
state nor entries are persisted and no document is built. -/
theorem run_no_update_skips_persist :
    (runFeedUpdate (fun s => .ok s) {} ⟨[]⟩ []
        [⟨"wordpress-tv", false, .ok { title := " " }, 0, ⟨0, 0⟩⟩]) =
      ⟨.ok (), false, some "no update detected", none, none, none⟩ ∧
    addLatestFromProvider (fun s => .ok s) 0 ⟨0, 0⟩ ⟨"wordpress-tv", false⟩
      (.ok { title := " " }) [] ⟨[]⟩ = .ok (false, [], ⟨[]⟩) := by
  constructor
  · rfl
  · rfl

/-- C5 amended: whenever the loop created at least one new entry, the run
persists the final state and final entry list (which extends the loaded
one) and rebuilds the output document from that same entry list. -/
theorem runFeedUpdate_persists_when_updated
    (tf : String → Except String String) (site : Site) (st0 : State)
    (en0 : List Entry) (ps : List ProviderRun)
    (h : (runFeedUpdate tf site st0 en0 ps).updated = true) :
    ∃ es st,
      (runFeedUpdate tf site st0 en0 ps).wroteEntries = some es ∧
      (runFeedUpdate tf site st0 en0 ps).wroteState = some st ∧
      (runFeedUpdate tf site st0 en0 ps).feedDoc = some (buildFeed site es) ∧
      (runFeedUpdate tf site st0 en0 ps).result = .ok () ∧
      (runFeedUpdate tf site st0 en0 ps).message = some "update detected" ∧
      (∃ rest, es = en0 ++ rest) := by
  rw [runFeedUpdate_updated] at h
  unfold runFeedUpdate
  simp only [h, Bool.true_eq_false, if_false]
  refine ⟨_, _, rfl, rfl, rfl, ?_, ?_,
    processProviders_prefix tf ps en0 st0 false none⟩
  · simp
  · simp

/-- Witness for the amended C5: one provider creating an entry triggers the
writes and the rebuild. -/
theorem runFeedUpdate_persists_when_updated_witness :
    (runFeedUpdate (fun s => .error s) {} ⟨[]⟩ []
        [⟨"wordpress-tv", false, .ok { title := "V", link := "L" }, 0, ⟨0, 0⟩⟩]).updated = true ∧
    (∃ es st,
      (runFeedUpdate (fun s => .error s) {} ⟨[]⟩ []
          [⟨"wordpress-tv", false, .ok { title := "V", link := "L" }, 0, ⟨0, 0⟩⟩]).wroteEntries =
        some es ∧
      (runFeedUpdate (fun s => .error s) {} ⟨[]⟩ []
          [⟨"wordpress-tv", false, .ok { title := "V", link := "L" }, 0, ⟨0, 0⟩⟩]).wroteState =
        some st ∧
      (runFeedUpdate (fun s => .error s) {} ⟨[]⟩ []
          [⟨"wordpress-tv", false, .ok { title := "V", link := "L" }, 0, ⟨0, 0⟩⟩]).feedDoc =
        some (buildFeed {} es) ∧
      (runFeedUpdate (fun s => .error s) {} ⟨[]⟩ []
          [⟨"wordpress-tv", false, .ok { title := "V", link := "L" }, 0, ⟨0, 0⟩⟩]).result =
        .ok () ∧
      (runFeedUpdate (fun s => .error s) {} ⟨[]⟩ []
          [⟨"wordpress-tv", false, .ok { title := "V", link := "L" }, 0, ⟨0, 0⟩⟩]).message =
        some "update detected" ∧
      (∃ rest, es = [] ++ rest)) :=
  ⟨by decide,
    runFeedUpdate_persists_when_updated (fun s => .error s) {} ⟨[]⟩ []
      [⟨"wordpress-tv", false, .ok { title := "V", link := "L" }, 0, ⟨0, 0⟩⟩]
      (by decide)⟩

/-! ## The built document's items -/

/-- Every item of the built document comes from an entry whose creation
timestamp parses. -/
theorem buildFeed_items_from (site : Site) (entries : List Entry) :
    ∀ it ∈ (buildFeed site entries).channel.items,
      ∃ e2, e2 ∈ entries ∧ ∃ t, parseTime e2.createdAt = some t ∧
        it = entryToItem e2 t := by
  intro it hit
  simp only [buildFeed] at hit
  rcases List.mem_filterMap.mp hit with ⟨e2, he2, hf⟩
  rcases Option.map_eq_some'.mp hf with ⟨t, ht, rfl⟩
  exact ⟨e2, (List.perm_insertionSort entryGE entries).mem_iff.mp he2, t, ht, rfl⟩

/-- Which writes happen: none on a no-update run, the loop's final entry
list (with its document) otherwise. -/
theorem runFeedUpdate_wrote (tf : String → Except String String) (site : Site)
    (st0 : State) (en0 : List Entry) (ps : List ProviderRun) :
    ((runFeedUpdate tf site st0 en0 ps).wroteEntries = none ∧
      (runFeedUpdate tf site st0 en0 ps).feedDoc = none) ∨
    ((runFeedUpdate tf site st0 en0 ps).wroteEntries =
        some (processProviders tf ps en0 st0 false none).entries ∧
      (runFeedUpdate tf site st0 en0 ps).feedDoc =
        some (buildFeed site (processProviders tf ps en0 st0 false none).entries)) := by
  unfold runFeedUpdate
  cases hu : (processProviders tf ps en0 st0 false none).updated
  · left
    simp only [hu, if_true]
    cases (processProviders tf ps en0 st0 false none).firstErr <;> exact ⟨rfl, rfl⟩
  · right
    simp only [hu, Bool.true_eq_false, if_false]
    exact ⟨by simp, by simp⟩

/-! ## C8: entries with malformed timestamps are skipped but kept -/

/-- C8: an entry whose creation timestamp does not parse contributes no
item to the built document (every item stems from a different, parseable
entry), while the loop keeps it in the entry list and any persisted entry
list of the run still contains it unchanged. -/
theorem unparseable_entry_excluded_but_kept
    (tf : String → Except String String) (site : Site) (st0 : State)
    (en0 : List Entry) (ps : List ProviderRun) (e : Entry)
    (he : e ∈ en0) (hp : parseTime e.createdAt = none) :
    (∀ it ∈ (buildFeed site en0).channel.items,
      ∃ e2, e2 ∈ en0 ∧ e2 ≠ e ∧ ∃ t, parseTime e2.createdAt = some t ∧
        it = entryToItem e2 t) ∧
    e ∈ (processProviders tf ps en0 st0 false none).entries ∧
    (∀ l, (runFeedUpdate tf site st0 en0 ps).wroteEntries = some l → e ∈ l) ∧
    (∀ doc, (runFeedUpdate tf site st0 en0 ps).feedDoc = some doc →
      ∀ it ∈ doc.channel.items,
        ∃ e2, e2 ≠ e ∧ ∃ t, parseTime e2.createdAt = some t ∧
          it = entryToItem e2 t) := by
  have hmem : e ∈ (processProviders tf ps en0 st0 false none).entries := by
    obtain ⟨rest, hr⟩ := processProviders_prefix tf ps en0 st0 false none
    rw [hr]
    exact List.mem_append_left rest he
  refine ⟨?_, hmem, ?_, ?_⟩
  · intro it hit
    obtain ⟨e2, he2, t, ht, rfl⟩ := buildFeed_items_from site en0 it hit
    refine ⟨e2, he2, ?_, t, ht, rfl⟩
    intro hcontra
    rw [hcontra, hp] at ht
    cases ht
  · intro l hl
    rcases runFeedUpdate_wrote tf site st0 en0 ps with ⟨hn, _⟩ | ⟨hs, _⟩
    · rw [hn] at hl; cases hl
    · rw [hs] at hl
      cases hl
      exact hmem
  · intro doc hdoc it hit
    rcases runFeedUpdate_wrote tf site st0 en0 ps with ⟨_, hn⟩ | ⟨_, hs⟩
    · rw [hn] at hdoc; cases hdoc
    · rw [hs] at hdoc
      cases hdoc
      obtain ⟨e2, _, t, ht, rfl⟩ :=
        buildFeed_items_from site (processProviders tf ps en0 st0 false none).entries it hit
      refine ⟨e2, ?_, t, ht, rfl⟩
      intro hcontra
      rw [hcontra, hp] at ht
      cases ht

/-- Witness for C8 at a concrete malformed entry. -/
theorem unparseable_entry_excluded_but_kept_witness :
    (⟨"a", "t", "", "", "not a date", []⟩ : Entry) ∈
        [(⟨"a", "t", "", "", "not a date", []⟩ : Entry)] ∧
    parseTime "not a date" = none ∧
    ((∀ it ∈ (buildFeed {} [(⟨"a", "t", "", "", "not a date", []⟩ : Entry)]).channel.items,
      ∃ e2, e2 ∈ [(⟨"a", "t", "", "", "not a date", []⟩ : Entry)] ∧
        e2 ≠ ⟨"a", "t", "", "", "not a date", []⟩ ∧
        ∃ t, parseTime e2.createdAt = some t ∧ it = entryToItem e2 t) ∧
    (⟨"a", "t", "", "", "not a date", []⟩ : Entry) ∈
      (processProviders (fun s => .ok s) [] [⟨"a", "t", "", "", "not a date", []⟩]
        ⟨[]⟩ false none).entries ∧
    (∀ l, (runFeedUpdate (fun s => .ok s) {} ⟨[]⟩
        [⟨"a", "t", "", "", "not a date", []⟩] []).wroteEntries = some l →
      (⟨"a", "t", "", "", "not a date", []⟩ : Entry) ∈ l) ∧
    (∀ doc, (runFeedUpdate (fun s => .ok s) {} ⟨[]⟩
        [⟨"a", "t", "", "", "not a date", []⟩] []).feedDoc = some doc →
      ∀ it ∈ doc.channel.items,
        ∃ e2, e2 ≠ ⟨"a", "t", "", "", "not a date", []⟩ ∧
          ∃ t, parseTime e2.createdAt = some t ∧ it = entryToItem e2 t)) :=
  ⟨by decide, by decide,
    unparseable_entry_excluded_but_kept (fun s => .ok s) {} ⟨[]⟩
      [⟨"a", "t", "", "", "not a date", []⟩] [] ⟨"a", "t", "", "", "not a date", []⟩
      (by decide) (by decide)⟩

/-! ## C7: the feed-level last-build timestamp — corrected

The code derives `lastBuildDate` only from the entry whose creation string
sorts first; if that string does not parse, the timestamp is omitted even
when other, parseable entries are included in the document. -/

/-- Counterexample to C7 as stated: the string-maximal entry is
unparseable, a parseable entry is still included as an item, yet
`lastBuildDate` is omitted. -/
theorem buildFeed_lastBuild_counterexample :
    (buildFeed {} [⟨"a", "", "", "", "x", []⟩,
        ⟨"b", "", "", "", "0001-01-01T00:00:00Z", []⟩]).channel.lastBuildDate = none ∧
    (parseTime "0001-01-01T00:00:00Z").isSome = true ∧
    (buildFeed {} [⟨"a", "", "", "", "x", []⟩,
        ⟨"b", "", "", "", "0001-01-01T00:00:00Z", []⟩]).channel.items.length = 1 := by
  refine ⟨?_, ?_, ?_⟩ <;> decide

/-- C7 amended: the built document's last-build timestamp is derived from
the entry whose creation string is (lexicographically) greatest: it equals
that entry's parsed timestamp in the output format when it parses, and is
omitted when the entry list is empty or that entry's timestamp does not
parse. -/
theorem buildFeed_lastBuild_from_max (site : Site) (entries : List Entry) :
    (entries = [] → (buildFeed site entries).channel.lastBuildDate = none) ∧
    (∀ e rest, sortEntriesDesc entries = e :: rest →
      e ∈ entries ∧ (∀ e2 ∈ entries, entryGE e e2) ∧
      (buildFeed site entries).channel.lastBuildDate =
        (parseTime e.createdAt).map formatRFC1123Z) := by
  haveI := entryGE_total
  haveI := entryGE_trans
  constructor
  · intro h
    subst h
    rfl
  · intro e rest hs
    have hperm := List.perm_insertionSort entryGE entries
    rw [show List.insertionSort entryGE entries = sortEntriesDesc entries from rfl, hs] at hperm
    have hmem : e ∈ entries := hperm.mem_iff.mp (List.mem_cons_self e rest)
    have hsorted := List.sorted_insertionSort entryGE entries
    rw [show List.insertionSort entryGE entries = sortEntriesDesc entries from rfl, hs] at hsorted
    have hmax : ∀ e2 ∈ entries, entryGE e e2 := by
      intro e2 he2
      have : e2 ∈ e :: rest := hperm.mem_iff.mpr he2
      rcases List.mem_cons.mp this with rfl | hin
      · exact lexLtB_irrefl _
      · exact (List.pairwise_cons.mp hsorted).1 e2 hin
    refine ⟨hmem, hmax, ?_⟩
    simp only [buildFeed, hs]

/-- Witness for the amended C7 at a one-entry list. -/
theorem buildFeed_lastBuild_from_max_witness :
    sortEntriesDesc [(⟨"a", "t", "", "", "0001-01-01T00:00:00Z", []⟩ : Entry)] =
      ⟨"a", "t", "", "", "0001-01-01T00:00:00Z", []⟩ :: [] ∧
    ((⟨"a", "t", "", "", "0001-01-01T00:00:00Z", []⟩ : Entry) ∈
        [(⟨"a", "t", "", "", "0001-01-01T00:00:00Z", []⟩ : Entry)] ∧
      (∀ e2 ∈ [(⟨"a", "t", "", "", "0001-01-01T00:00:00Z", []⟩ : Entry)],
        entryGE ⟨"a", "t", "", "", "0001-01-01T00:00:00Z", []⟩ e2) ∧
      (buildFeed {} [(⟨"a", "t", "", "", "0001-01-01T00:00:00Z", []⟩ : Entry)]).channel.lastBuildDate =
        (parseTime "0001-01-01T00:00:00Z").map formatRFC1123Z) :=
  ⟨by decide,
    (buildFeed_lastBuild_from_max {}
        [(⟨"a", "t", "", "", "0001-01-01T00:00:00Z", []⟩ : Entry)]).2
      ⟨"a", "t", "", "", "0001-01-01T00:00:00Z", []⟩ [] (by decide)⟩

/-! ## C6 groundwork: the calendar embeds monotonically into day counts -/

theorem length_dropWhile_le (p : Char → Bool) (l : List Char) :
    (l.dropWhile p).length ≤ l.length := by
  induction l with
  | nil => simp
  | cons a tl ih =>
    rw [List.dropWhile_cons]
    split
    · simp
      omega
    · simp

theorem dropWhile_eq_self_of_length (p : Char → Bool) :
    ∀ l : List Char, (l.dropWhile p).length = l.length → l.dropWhile p = l
  | [], _ => rfl
  | a :: tl, h => by
    by_cases hp : p a = true
    · exfalso
      rw [List.dropWhile_cons, if_pos hp] at h
      have := length_dropWhile_le p tl
      simp at h
      omega
    · rw [List.dropWhile_cons, if_neg hp]

theorem daysInMonth_le_31 : ∀ (leap : Bool), ∀ mo < 13, daysInMonth leap mo ≤ 31 := by
  decide

theorem dayOfYear_lt_daysInYear :
    ∀ (leap : Bool), ∀ mo < 13, ∀ d < 32, 1 ≤ mo → 1 ≤ d →
      d ≤ daysInMonth leap mo → dayOfYear leap mo d < (if leap then 366 else 365) := by
  decide

set_option synthInstance.maxSize 600 in
theorem dayOfYear_month_start_lt :
    ∀ (leap : Bool), ∀ mo < 13, ∀ mo2 < 13, ∀ d < 32, 1 ≤ mo → mo < mo2 → 1 ≤ d →
      d ≤ daysInMonth leap mo → dayOfYear leap mo d < dayOfYear leap mo2 1 := by
  decide

theorem dayOfYear_mono_d (leap : Bool) (mo : Nat) {d d2 : Nat} (h : d ≤ d2) :
    dayOfYear leap mo d ≤ dayOfYear leap mo d2 := by
  unfold dayOfYear
  omega

theorem daysInYear_ge (y : Nat) : 365 ≤ daysInYear y := by
  unfold daysInYear
  split <;> omega

theorem daysBeforeYear_le : ∀ y y2 : Nat, y ≤ y2 → daysBeforeYear y ≤ daysBeforeYear y2 := by
  intro y y2
  induction y2 with
  | zero =>
    intro h
    have : y = 0 := by omega
    simp [this]
  | succ n ih =>
    intro h
    rcases Nat.lt_or_ge y (n + 1) with hlt | hge
    · have h1 := ih (by omega)
      have h2 : daysBeforeYear (n + 1) = daysBeforeYear n + daysInYear n := rfl
      omega
    · have : y = n + 1 := by omega
      simp [this]

theorem daysBeforeYear_gap (y y2 : Nat) (h : y < y2) :
    daysBeforeYear y + daysInYear y ≤ daysBeforeYear y2 := by
  have h1 : daysBeforeYear (y + 1) = daysBeforeYear y + daysInYear y := rfl
  have h2 := daysBeforeYear_le (y + 1) y2 h
  omega

/-- The civil date to day-count map is strictly monotone on valid dates in
the lexicographic year-month-day order. -/
theorem dateDays_lt (y mo d y2 mo2 d2 : Nat)
    (hv : 1 ≤ mo ∧ mo ≤ 12 ∧ 1 ≤ d ∧ d ≤ daysInMonth (isLeap y) mo)
    (hv2 : 1 ≤ mo2 ∧ mo2 ≤ 12 ∧ 1 ≤ d2 ∧ d2 ≤ daysInMonth (isLeap y2) mo2)
    (hlex : y < y2 ∨ (y = y2 ∧ (mo < mo2 ∨ (mo = mo2 ∧ d < d2)))) :
    dateDays y mo d < dateDays y2 mo2 d2 := by
  obtain ⟨h1, h2, h3, h4⟩ := hv
  obtain ⟨g1, g2, g3, g4⟩ := hv2
  rcases hlex with hy | ⟨rfl, hrest⟩
  · unfold dateDays
    have h31 := daysInMonth_le_31 (isLeap y) mo (by omega)
    have hdoy : dayOfYear (isLeap y) mo d < daysInYear y := by
      have hb := dayOfYear_lt_daysInYear (isLeap y) mo (by omega) d (by omega) h1 h3 h4
      unfold daysInYear
      exact hb
    have hgap := daysBeforeYear_gap y y2 hy
    omega
  · rcases hrest with hm | ⟨rfl, hd⟩
    · unfold dateDays
      have h31 := daysInMonth_le_31 (isLeap y) mo (by omega)
      have hstart := dayOfYear_month_start_lt (isLeap y) mo (by omega) mo2 (by omega)
        d (by omega) h1 hm h3 h4
      have hmono := dayOfYear_mono_d (isLeap y) mo2 g3
      omega
    · unfold dateDays dayOfYear
      omega

/-- The instant map is strictly monotone on valid date-times in the
lexicographic order of their six components. -/
theorem civilToUnix_lt (y mo d h mi s y2 mo2 d2 h2 mi2 s2 : Nat)
    (hv : 1 ≤ mo ∧ mo ≤ 12 ∧ 1 ≤ d ∧ d ≤ daysInMonth (isLeap y) mo ∧
      h ≤ 23 ∧ mi ≤ 59 ∧ s ≤ 59)
    (hv2 : 1 ≤ mo2 ∧ mo2 ≤ 12 ∧ 1 ≤ d2 ∧ d2 ≤ daysInMonth (isLeap y2) mo2 ∧
      h2 ≤ 23 ∧ mi2 ≤ 59 ∧ s2 ≤ 59)
    (hlex : y < y2 ∨ (y = y2 ∧ (mo < mo2 ∨ (mo = mo2 ∧ (d < d2 ∨ (d = d2 ∧
      (h < h2 ∨ (h = h2 ∧ (mi < mi2 ∨ (mi = mi2 ∧ s < s2)))))))))) :
    civilToUnix y mo d h mi s < civilToUnix y2 mo2 d2 h2 mi2 s2 := by
  obtain ⟨a1, a2, a3, a4, a5, a6, a7⟩ := hv
  obtain ⟨b1, b2, b3, b4, b5, b6, b7⟩ := hv2
  have key : dateDays y mo d * 86400 + (h * 3600 + mi * 60 + s) <
      dateDays y2 mo2 d2 * 86400 + (h2 * 3600 + mi2 * 60 + s2) := by
    rcases hlex with hy | ⟨rfl, hrest⟩
    · have := dateDays_lt y mo d y2 mo2 d2 ⟨a1, a2, a3, a4⟩ ⟨b1, b2, b3, b4⟩ (Or.inl hy)
      omega
    · rcases hrest with hm | ⟨rfl, hrest⟩
      · have := dateDays_lt y mo d y mo2 d2 ⟨a1, a2, a3, a4⟩ ⟨b1, b2, b3, b4⟩
          (Or.inr ⟨rfl, Or.inl hm⟩)
        omega
      · rcases hrest with hd | ⟨rfl, htime⟩
        · have := dateDays_lt y mo d y mo d2 ⟨a1, a2, a3, a4⟩ ⟨b1, b2, b3, b4⟩
            (Or.inr ⟨rfl, Or.inr ⟨rfl, hd⟩⟩)
          omega
        · omega
  unfold civilToUnix
  omega

/-- An accepted 20-character timestamp has exactly the
`YYYY-MM-DDTHH:MM:SSZ` shape with in-range digit fields, and denotes the
civil instant of those fields with no fractional part. -/
theorem rfc3339_shape (cs : List Char) (u : GoTime)
    (h : rfc3339Core cs = some u) (hlen : cs.length = 20) :
    ∃ y1 y2 y3 y4 o1 o2 d1 d2 h1 h2 n1 n2 s1 s2,
      cs = [y1, y2, y3, y4, '-', o1, o2, '-', d1, d2, 'T',
            h1, h2, ':', n1, n2, ':', s1, s2, 'Z'] ∧
      (isDigitC y1 = true ∧ isDigitC y2 = true ∧ isDigitC y3 = true ∧
        isDigitC y4 = true ∧ isDigitC o1 = true ∧ isDigitC o2 = true ∧
        isDigitC d1 = true ∧ isDigitC d2 = true ∧ isDigitC h1 = true ∧
        isDigitC h2 = true ∧ isDigitC n1 = true ∧ isDigitC n2 = true ∧
        isDigitC s1 = true ∧ isDigitC s2 = true) ∧
      (1 ≤ dval o1 * 10 + dval o2 ∧ dval o1 * 10 + dval o2 ≤ 12 ∧
        1 ≤ dval d1 * 10 + dval d2 ∧
        dval d1 * 10 + dval d2 ≤ daysInMonth
          (isLeap (dval y1 * 1000 + dval y2 * 100 + dval y3 * 10 + dval y4))
          (dval o1 * 10 + dval o2) ∧
        dval h1 * 10 + dval h2 ≤ 23 ∧ dval n1 * 10 + dval n2 ≤ 59 ∧
        dval s1 * 10 + dval s2 ≤ 59) ∧
      u = ⟨civilToUnix (dval y1 * 1000 + dval y2 * 100 + dval y3 * 10 + dval y4)
            (dval o1 * 10 + dval o2) (dval d1 * 10 + dval d2)
            (dval h1 * 10 + dval h2) (dval n1 * 10 + dval n2)
            (dval s1 * 10 + dval s2), 0⟩ := by
  unfold rfc3339Core at h
  split at h
  · rename_i y1 y2 y3 y4 o1 o2 d1 d2 h1 h2 n1 n2 s1 s2 rest
    split at h
    · rename_i hdig
      simp only [Bool.and_eq_true, decide_eq_true_eq] at h hdig
      split at h
      · rename_i hbnd
        have hr1 : rest.length = 1 := by
          simp only [List.length_cons] at hlen
          omega
        obtain ⟨c, rfl⟩ := List.length_eq_one.mp hr1
        rw [show (splitFrac [c]).2 = [c] from rfl,
          show (splitFrac [c]).1 = 0 from rfl] at h
        by_cases hcz : c = 'Z'
        · subst hcz
          rw [show parseZoneChars ['Z'] = some 0 from rfl] at h
          simp only [Option.some.injEq] at h
          refine ⟨y1, y2, y3, y4, o1, o2, d1, d2, h1, h2, n1, n2, s1, s2,
            rfl, ?_, ?_, ?_⟩
          · tauto
          · tauto
          · rw [← h, sub_zero]
        · rw [show parseZoneChars [c] = if c = 'Z' then some 0 else none from rfl,
            if_neg hcz] at h
          cases h
      · cases h
    · cases h
  · cases h

/-- Accepted timestamps have at least the 19 mandatory characters and a
zone. -/
theorem rfc3339Core_length (cs : List Char) (u : GoTime)
    (h : rfc3339Core cs = some u) : 20 ≤ cs.length := by
  unfold rfc3339Core at h
  split at h
  · rename_i y1 y2 y3 y4 o1 o2 d1 d2 h1 h2 n1 n2 s1 s2 rest
    split at h
    · simp only [Bool.and_eq_true, decide_eq_true_eq] at h
      split at h
      · have hne : rest ≠ [] := by
          intro hr
          subst hr
          simp [splitFrac, parseZoneChars] at h
        have : 1 ≤ rest.length := List.length_pos.mpr hne
        simp only [List.length_cons]
        omega
      · cases h
    · cases h
  · cases h

/-- A 20-character string that still parses after trimming was not trimmed
at all. -/
theorem trimSpace_data_of_long (s : String)
    (h20 : 20 ≤ (trimSpace s).data.length) (hlen : s.data.length = 20) :
    (trimSpace s).data = s.data := by
  have hdata : (trimSpace s).data =
      ((s.data.dropWhile isSpaceGo).reverse.dropWhile isSpaceGo).reverse := rfl
  rw [hdata] at h20 ⊢
  have e1 := length_dropWhile_le isSpaceGo s.data
  have e2 := length_dropWhile_le isSpaceGo (s.data.dropWhile isSpaceGo).reverse
  rw [List.length_reverse] at h20
  rw [List.length_reverse] at e2
  have hlen1 : (s.data.dropWhile isSpaceGo).length = s.data.length := by omega
  have hlen2 : ((s.data.dropWhile isSpaceGo).reverse.dropWhile isSpaceGo).length =
      (s.data.dropWhile isSpaceGo).reverse.length := by
    rw [List.length_reverse]
    omega
  rw [dropWhile_eq_self_of_length isSpaceGo _ hlen2, List.reverse_reverse,
    dropWhile_eq_self_of_length isSpaceGo _ hlen1]

/-- Unpacking a normalized timestamp: its untrimmed character list parses,
and is 20 characters long. -/
theorem isNormalizedTime_elim (s : String) (h : isNormalizedTime s = true) :
    s.data.length = 20 ∧
      ∃ u, rfc3339Core s.data = some u ∧ parseTime s = some u := by
  simp only [isNormalizedTime, Bool.and_eq_true, decide_eq_true_eq] at h
  obtain ⟨hlen, hsome⟩ := h
  obtain ⟨u, hu⟩ := Option.isSome_iff_exists.mp hsome
  have hcore : rfc3339Core (trimSpace s).data = some u := hu
  have h20 := rfc3339Core_length _ _ hcore
  have hdata := trimSpace_data_of_long s h20 hlen
  rw [hdata] at hcore
  refine ⟨hlen, u, hcore, hu⟩

/-- Character order is code-point order. -/
theorem charToNatLt {a b : Char} (h : a < b) : a.toNat < b.toNat :=
  Char.lt_def.mp h

/-- The 20-position walk: a byte-wise smaller normalized timestamp denotes
a strictly smaller instant. -/
theorem lex20_civil_lt
    (a1 a2 a3 a4 b1 b2 c1 c2 e1 e2 f1 f2 g1 g2 : Char)
    (p1 p2 p3 p4 q1 q2 r1 r2 u1 u2 v1 v2 w1 w2 : Char)
    (hdA : isDigitC a1 = true ∧ isDigitC a2 = true ∧ isDigitC a3 = true ∧
      isDigitC a4 = true ∧ isDigitC b1 = true ∧ isDigitC b2 = true ∧
      isDigitC c1 = true ∧ isDigitC c2 = true ∧ isDigitC e1 = true ∧
      isDigitC e2 = true ∧ isDigitC f1 = true ∧ isDigitC f2 = true ∧
      isDigitC g1 = true ∧ isDigitC g2 = true)
    (hdP : isDigitC p1 = true ∧ isDigitC p2 = true ∧ isDigitC p3 = true ∧
      isDigitC p4 = true ∧ isDigitC q1 = true ∧ isDigitC q2 = true ∧
      isDigitC r1 = true ∧ isDigitC r2 = true ∧ isDigitC u1 = true ∧
      isDigitC u2 = true ∧ isDigitC v1 = true ∧ isDigitC v2 = true ∧
      isDigitC w1 = true ∧ isDigitC w2 = true)
    (hvA : 1 ≤ dval b1 * 10 + dval b2 ∧ dval b1 * 10 + dval b2 ≤ 12 ∧
      1 ≤ dval c1 * 10 + dval c2 ∧
      dval c1 * 10 + dval c2 ≤ daysInMonth
        (isLeap (dval a1 * 1000 + dval a2 * 100 + dval a3 * 10 + dval a4))
        (dval b1 * 10 + dval b2) ∧
      dval e1 * 10 + dval e2 ≤ 23 ∧ dval f1 * 10 + dval f2 ≤ 59 ∧
      dval g1 * 10 + dval g2 ≤ 59)
    (hvP : 1 ≤ dval q1 * 10 + dval q2 ∧ dval q1 * 10 + dval q2 ≤ 12 ∧
      1 ≤ dval r1 * 10 + dval r2 ∧
      dval r1 * 10 + dval r2 ≤ daysInMonth
        (isLeap (dval p1 * 1000 + dval p2 * 100 + dval p3 * 10 + dval p4))
        (dval q1 * 10 + dval q2) ∧
      dval u1 * 10 + dval u2 ≤ 23 ∧ dval v1 * 10 + dval v2 ≤ 59 ∧
      dval w1 * 10 + dval w2 ≤ 59)
    (hlex : lexLtB
      [a1, a2, a3, a4, '-', b1, b2, '-', c1, c2, 'T', e1, e2, ':', f1, f2, ':', g1, g2, 'Z']
      [p1, p2, p3, p4, '-', q1, q2, '-', r1, r2, 'T', u1, u2, ':', v1, v2, ':', w1, w2, 'Z'] =
        true) :
    civilToUnix (dval a1 * 1000 + dval a2 * 100 + dval a3 * 10 + dval a4)
        (dval b1 * 10 + dval b2) (dval c1 * 10 + dval c2) (dval e1 * 10 + dval e2)
        (dval f1 * 10 + dval f2) (dval g1 * 10 + dval g2) <
      civilToUnix (dval p1 * 1000 + dval p2 * 100 + dval p3 * 10 + dval p4)
        (dval q1 * 10 + dval q2) (dval r1 * 10 + dval r2) (dval u1 * 10 + dval u2)
        (dval v1 * 10 + dval v2) (dval w1 * 10 + dval w2) := by
  have conv : ∀ c : Char, isDigitC c = true → 48 ≤ c.toNat ∧ c.toNat ≤ 57 := by
    intro c hc
    simpa [isDigitC] using hc
  obtain ⟨da1, da2, da3, da4, db1, db2, dc1, dc2, de1, de2, df1, df2, dg1, dg2⟩ := hdA
  obtain ⟨dp1, dp2, dp3, dp4, dq1, dq2, dr1, dr2, du1, du2, dv1, dv2, dw1, dw2⟩ := hdP
  have bnda1 := conv a1 da1
  have bnda2 := conv a2 da2
  have bnda3 := conv a3 da3
  have bnda4 := conv a4 da4
  have bndb1 := conv b1 db1
  have bndb2 := conv b2 db2
  have bndc1 := conv c1 dc1
  have bndc2 := conv c2 dc2
  have bnde1 := conv e1 de1
  have bnde2 := conv e2 de2
  have bndf1 := conv f1 df1
  have bndf2 := conv f2 df2
  have bndg1 := conv g1 dg1
  have bndg2 := conv g2 dg2
  have bndp1 := conv p1 dp1
  have bndp2 := conv p2 dp2
  have bndp3 := conv p3 dp3
  have bndp4 := conv p4 dp4
  have bndq1 := conv q1 dq1
  have bndq2 := conv q2 dq2
  have bndr1 := conv r1 dr1
  have bndr2 := conv r2 dr2
  have bndu1 := conv u1 du1
  have bndu2 := conv u2 du2
  have bndv1 := conv v1 dv1
  have bndv2 := conv v2 dv2
  have bndw1 := conv w1 dw1
  have bndw2 := conv w2 dw2
  rcases lexLtB_cons_elim hlex with hr | ⟨rfl, hlex1⟩
  · refine civilToUnix_lt _ _ _ _ _ _ _ _ _ _ _ _ hvA hvP (Or.inl ?_)
    have hx := charToNatLt hr
    simp only [dval]
    omega
  rcases lexLtB_cons_elim hlex1 with hr | ⟨rfl, hlex2⟩
  · refine civilToUnix_lt _ _ _ _ _ _ _ _ _ _ _ _ hvA hvP (Or.inl ?_)
    have hx := charToNatLt hr
    simp only [dval]
    omega
  rcases lexLtB_cons_elim hlex2 with hr | ⟨rfl, hlex3⟩
  · refine civilToUnix_lt _ _ _ _ _ _ _ _ _ _ _ _ hvA hvP (Or.inl ?_)
    have hx := charToNatLt hr
    simp only [dval]
    omega
  rcases lexLtB_cons_elim hlex3 with hr | ⟨rfl, hlex4⟩
  · refine civilToUnix_lt _ _ _ _ _ _ _ _ _ _ _ _ hvA hvP (Or.inl ?_)
    have hx := charToNatLt hr
    simp only [dval]
    omega
  rcases lexLtB_cons_elim hlex4 with hr | ⟨_, hlex5⟩
  · exact absurd hr (lt_irrefl _)
  rcases lexLtB_cons_elim hlex5 with hr | ⟨rfl, hlex6⟩
  · refine civilToUnix_lt _ _ _ _ _ _ _ _ _ _ _ _ hvA hvP (Or.inr ⟨rfl, Or.inl ?_⟩)
    have hx := charToNatLt hr
    simp only [dval]
    omega
  rcases lexLtB_cons_elim hlex6 with hr | ⟨rfl, hlex7⟩
  · refine civilToUnix_lt _ _ _ _ _ _ _ _ _ _ _ _ hvA hvP (Or.inr ⟨rfl, Or.inl ?_⟩)
    have hx := charToNatLt hr
    simp only [dval]
    omega
  rcases lexLtB_cons_elim hlex7 with hr | ⟨_, hlex8⟩
  · exact absurd hr (lt_irrefl _)
  rcases lexLtB_cons_elim hlex8 with hr | ⟨rfl, hlex9⟩
  · refine civilToUnix_lt _ _ _ _ _ _ _ _ _ _ _ _ hvA hvP (Or.inr ⟨rfl, Or.inr ⟨rfl, Or.inl ?_⟩⟩)
    have hx := charToNatLt hr
    simp only [dval]
    omega
  rcases lexLtB_cons_elim hlex9 with hr | ⟨rfl, hlex10⟩
  · refine civilToUnix_lt _ _ _ _ _ _ _ _ _ _ _ _ hvA hvP (Or.inr ⟨rfl, Or.inr ⟨rfl, Or.inl ?_⟩⟩)
    have hx := charToNatLt hr
    simp only [dval]
    omega
  rcases lexLtB_cons_elim hlex10 with hr | ⟨_, hlex11⟩
  · exact absurd hr (lt_irrefl _)
  rcases lexLtB_cons_elim hlex11 with hr | ⟨rfl, hlex12⟩
  · refine civilToUnix_lt _ _ _ _ _ _ _ _ _ _ _ _ hvA hvP (Or.inr ⟨rfl, Or.inr ⟨rfl, Or.inr ⟨rfl, Or.inl ?_⟩⟩⟩)
    have hx := charToNatLt hr
    simp only [dval]
    omega
  rcases lexLtB_cons_elim hlex12 with hr | ⟨rfl, hlex13⟩
  · refine civilToUnix_lt _ _ _ _ _ _ _ _ _ _ _ _ hvA hvP (Or.inr ⟨rfl, Or.inr ⟨rfl, Or.inr ⟨rfl, Or.inl ?_⟩⟩⟩)
    have hx := charToNatLt hr
    simp only [dval]
    omega
  rcases lexLtB_cons_elim hlex13 with hr | ⟨_, hlex14⟩
  · exact absurd hr (lt_irrefl _)
  rcases lexLtB_cons_elim hlex14 with hr | ⟨rfl, hlex15⟩
  · refine civilToUnix_lt _ _ _ _ _ _ _ _ _ _ _ _ hvA hvP (Or.inr ⟨rfl, Or.inr ⟨rfl, Or.inr ⟨rfl, Or.inr ⟨rfl, Or.inl ?_⟩⟩⟩⟩)
    have hx := charToNatLt hr
    simp only [dval]
    omega
  rcases lexLtB_cons_elim hlex15 with hr | ⟨rfl, hlex16⟩
  · refine civilToUnix_lt _ _ _ _ _ _ _ _ _ _ _ _ hvA hvP (Or.inr ⟨rfl, Or.inr ⟨rfl, Or.inr ⟨rfl, Or.inr ⟨rfl, Or.inl ?_⟩⟩⟩⟩)
    have hx := charToNatLt hr
    simp only [dval]
    omega
  rcases lexLtB_cons_elim hlex16 with hr | ⟨_, hlex17⟩
  · exact absurd hr (lt_irrefl _)
  rcases lexLtB_cons_elim hlex17 with hr | ⟨rfl, hlex18⟩
  · refine civilToUnix_lt _ _ _ _ _ _ _ _ _ _ _ _ hvA hvP (Or.inr ⟨rfl, Or.inr ⟨rfl, Or.inr ⟨rfl, Or.inr ⟨rfl, Or.inr ⟨rfl, ?_⟩⟩⟩⟩⟩)
    have hx := charToNatLt hr
    simp only [dval]
    omega
  rcases lexLtB_cons_elim hlex18 with hr | ⟨rfl, hlex19⟩
  · refine civilToUnix_lt _ _ _ _ _ _ _ _ _ _ _ _ hvA hvP (Or.inr ⟨rfl, Or.inr ⟨rfl, Or.inr ⟨rfl, Or.inr ⟨rfl, Or.inr ⟨rfl, ?_⟩⟩⟩⟩⟩)
    have hx := charToNatLt hr
    simp only [dval]
    omega
  rcases lexLtB_cons_elim hlex19 with hr | ⟨_, hlex20⟩
  · exact absurd hr (lt_irrefl _)
  simp [lexLtB] at hlex20

/-- A byte-wise smaller normalized timestamp denotes a strictly smaller
instant. -/
theorem parseTime_lt_of_normalized (s t : String)
    (hs : isNormalizedTime s = true) (ht : isNormalizedTime t = true)
    (hlt : goStrLt s t = true) :
    goTimeLtB ((parseTime s).getD ⟨0, 0⟩) ((parseTime t).getD ⟨0, 0⟩) = true := by
  obtain ⟨hslen, us, hscore, hsparse⟩ := isNormalizedTime_elim s hs
  obtain ⟨htlen, ut, htcore, htparse⟩ := isNormalizedTime_elim t ht
  obtain ⟨a1, a2, a3, a4, b1, b2, c1, c2, e1, e2, f1, f2, g1, g2,
    hsdata, hsdig, hsbnd, rfl⟩ := rfc3339_shape s.data us hscore hslen
  obtain ⟨p1, p2, p3, p4, q1, q2, r1, r2, u1, u2, v1, v2, w1, w2,
    htdata, htdig, htbnd, rfl⟩ := rfc3339_shape t.data ut htcore htlen
  unfold goStrLt at hlt
  rw [hsdata, htdata] at hlt
  have hlt2 := lex20_civil_lt a1 a2 a3 a4 b1 b2 c1 c2 e1 e2 f1 f2 g1 g2
    p1 p2 p3 p4 q1 q2 r1 r2 u1 u2 v1 v2 w1 w2 hsdig htdig hsbnd htbnd hlt
  rw [hsparse, htparse]
  simp only [Option.getD_some]
  simp [goTimeLtB, hlt2]

/-- When every creation timestamp parses, the built item list is exactly
the map over the (sorted) entries. -/
theorem filterMap_parse_eq_map : ∀ l : List Entry,
    (∀ e ∈ l, (parseTime e.createdAt).isSome = true) →
    l.filterMap (fun e => (parseTime e.createdAt).map (fun t => entryToItem e t)) =
      l.map (fun e => entryToItem e (entryInstantD e))
  | [], _ => rfl
  | a :: tl, h => by
    obtain ⟨t, ht⟩ := Option.isSome_iff_exists.mp (h a (by simp))
    have hID : entryInstantD a = t := by
      simp [entryInstantD, ht]
    simp only [List.filterMap_cons, List.map_cons, ht, Option.map_some', hID]
    rw [filterMap_parse_eq_map tl (fun e he => h e (List.mem_cons_of_mem _ he))]

/-! ## C6: the built document is in descending chronological order -/

/-- C6: for an entry list whose creation timestamps are all in the
normalized fixed-width representation (and hence all parse) and denote
pairwise distinct instants, the built document's items are those of a
permutation of the entries whose instants are strictly descending: the
newest entry comes first, the oldest last. -/
theorem buildFeed_items_chronological (site : Site) (entries : List Entry)
    (hn : ∀ e ∈ entries, isNormalizedTime e.createdAt = true)
    (hd : entries.Pairwise (fun a b => entryInstantD a ≠ entryInstantD b)) :
    ∃ es : List Entry, es.Perm entries ∧
      (buildFeed site entries).channel.items =
        es.map (fun e => entryToItem e (entryInstantD e)) ∧
      es.Chain' (fun a b => goTimeLtB (entryInstantD b) (entryInstantD a) = true) := by
  haveI := entryGE_total
  haveI := entryGE_trans
  have hperm : (sortEntriesDesc entries).Perm entries :=
    List.perm_insertionSort entryGE entries
  refine ⟨sortEntriesDesc entries, hperm, ?_, ?_⟩
  · have hall : ∀ e ∈ sortEntriesDesc entries, (parseTime e.createdAt).isSome = true := by
      intro e he
      have := hn e (hperm.mem_iff.mp he)
      simp only [isNormalizedTime, Bool.and_eq_true] at this
      exact this.2
    simp only [buildFeed]
    exact filterMap_parse_eq_map _ hall
  · have hsorted : (sortEntriesDesc entries).Pairwise entryGE :=
      List.sorted_insertionSort entryGE entries
    have hsymm : Symmetric (fun a b : Entry => entryInstantD a ≠ entryInstantD b) :=
      fun _ _ hxy he => hxy he.symm
    have hdist : (sortEntriesDesc entries).Pairwise
        (fun a b => entryInstantD a ≠ entryInstantD b) :=
      (hperm.pairwise_iff @hsymm).mpr hd
    have himp : (sortEntriesDesc entries).Pairwise
        (fun a b => goTimeLtB (entryInstantD b) (entryInstantD a) = true) := by
      refine List.Pairwise.imp_of_mem ?_ (hsorted.and hdist)
      intro a b ha hb hab
      obtain ⟨hge, hne⟩ := hab
      have hna := hn a (hperm.mem_iff.mp ha)
      have hnb := hn b (hperm.mem_iff.mp hb)
      rcases lexLtB_conn _ _ hge with heq | hba
      · exfalso
        apply hne
        have hsame : a.createdAt = b.createdAt := String.ext heq
        unfold entryInstantD
        rw [hsame]
      · exact parseTime_lt_of_normalized _ _ hnb hna hba
    exact himp.chain'

/-- Witness for C6 at three concrete entries with distinct normalized
timestamps. -/
theorem buildFeed_items_chronological_witness :
    (∀ e ∈ [(⟨"a", "", "", "", "0001-01-01T00:00:01Z", []⟩ : Entry),
        ⟨"b", "", "", "", "0001-01-01T00:00:02Z", []⟩,
        ⟨"c", "", "", "", "0001-01-01T00:00:00Z", []⟩],
      isNormalizedTime e.createdAt = true) ∧
    ([(⟨"a", "", "", "", "0001-01-01T00:00:01Z", []⟩ : Entry),
        ⟨"b", "", "", "", "0001-01-01T00:00:02Z", []⟩,
        ⟨"c", "", "", "", "0001-01-01T00:00:00Z", []⟩].Pairwise
      (fun a b => entryInstantD a ≠ entryInstantD b)) ∧
    (∃ es : List Entry,
      es.Perm [(⟨"a", "", "", "", "0001-01-01T00:00:01Z", []⟩ : Entry),
        ⟨"b", "", "", "", "0001-01-01T00:00:02Z", []⟩,
        ⟨"c", "", "", "", "0001-01-01T00:00:00Z", []⟩] ∧
      (buildFeed {} [(⟨"a", "", "", "", "0001-01-01T00:00:01Z", []⟩ : Entry),
        ⟨"b", "", "", "", "0001-01-01T00:00:02Z", []⟩,
        ⟨"c", "", "", "", "0001-01-01T00:00:00Z", []⟩]).channel.items =
        es.map (fun e => entryToItem e (entryInstantD e)) ∧
      es.Chain' (fun a b => goTimeLtB (entryInstantD b) (entryInstantD a) = true)) :=
  ⟨by decide, by decide,
    buildFeed_items_chronological {}
      [⟨"a", "", "", "", "0001-01-01T00:00:01Z", []⟩,
        ⟨"b", "", "", "", "0001-01-01T00:00:02Z", []⟩,
        ⟨"c", "", "", "", "0001-01-01T00:00:00Z", []⟩]
      (by decide) (by decide)⟩

/-! ## C9: media-markup normalization

As written, the Go source cannot perform this normalization at all: the
width/height patterns end in the backreference `\1`, which Go's RE2 engine
rejects, so `regexp.MustCompile` panics while initializing the `feed`
package and the program never runs (see the note above the scanners).  The
theorem below settles what the normalization was meant to produce, on the
embedded intended semantics of the patterns. -/

/-- C9 (intended semantics): the specification's concrete test —
normalizing a lone sized iframe keeps `src` and `allow`, replaces the
sizing with `width="100%" height="auto"`, and keeps the closing tag;
content without an iframe normalizes to the empty string. -/
theorem extractFirstIframe_spec_examples :
    extractFirstIframe
        "<iframe src=\"x\" width=\"320\" height=\"180\" allow=\"y\"></iframe>" =
      "<iframe src=\"x\" allow=\"y\" width=\"100%\" height=\"auto\"></iframe>" ∧
    extractFirstIframe "no embedded frame here" = "" := by
  constructor
  · decide
  · decide

/-! ## C10: content selection — corrected

`pickEncodedOrDescription` implements the preference for the encoded body,
but no adapter calls it: the wordpress-com adapter returns the item's plain
`description` as the content, ignoring `contentEncoded`. -/

/-- Counterexample to C10 as stated: a wordpress-com item with a non-empty
encoded body still comes back with the plain description as its content. -/
theorem wordpresscom_ignores_encoded :
    latestWordPressComBlog
        (.ok ⟨⟨[{ title := "T", description := "DESC", contentEncoded := "BODY" }]⟩⟩) =
      .ok { title := "T", description := "DESC" } ∧
    pickEncodedOrDescription "BODY" "DESC" = "BODY" ∧
    ("DESC" : String) ≠ "BODY" := by
  refine ⟨?_, ?_, ?_⟩ <;> decide

/-- C10 amended: the helper `pickEncodedOrDescription` returns the trimmed
encoded body when that is non-empty after trimming and the trimmed
description otherwise, but the wordpress-com adapter does not use it: its
returned item always carries the first channel item's plain description. -/
theorem pickEncoded_rule_but_adapter_ignores (enc desc : String) :
    (trimSpace enc ≠ "" → pickEncodedOrDescription enc desc = trimSpace enc) ∧
    (trimSpace enc = "" → pickEncodedOrDescription enc desc = trimSpace desc) ∧
    (∀ f : WPComFeed, ∀ item rest, f.channel.items = item :: rest →
      latestWordPressComBlog (.ok f) =
        .ok { title := item.title, link := item.link, guid := item.guid,
              pubDate := item.pubDate, description := item.description,
              categories := item.categories }) := by
  refine ⟨?_, ?_, ?_⟩
  · intro h
    simp [pickEncodedOrDescription, h]
  · intro h
    simp [pickEncodedOrDescription, h]
  · intro f item rest hitems
    simp [latestWordPressComBlog, hitems]

/-- Witness for the amended C10: both branches of the helper at concrete
strings, and the adapter on a concrete one-item feed. -/
theorem pickEncoded_rule_but_adapter_ignores_witness :
    pickEncodedOrDescription " BODY " "DESC" = trimSpace " BODY " ∧
    pickEncodedOrDescription "  " " DESC " = trimSpace " DESC " ∧
    latestWordPressComBlog
        (.ok ⟨⟨[{ title := "T", description := "D", contentEncoded := "E" }]⟩⟩) =
      .ok { title := "T", description := "D" } :=
  ⟨(pickEncoded_rule_but_adapter_ignores " BODY " "DESC").1 (by decide),
   (pickEncoded_rule_but_adapter_ignores "  " " DESC ").2.1 (by decide),
   (pickEncoded_rule_but_adapter_ignores "" "").2.2
     ⟨⟨[{ title := "T", description := "D", contentEncoded := "E" }]⟩⟩
     { title := "T", description := "D", contentEncoded := "E" } [] rfl⟩

end Wapu
